import Mathlib

/-
Verification of the Oden GitHub sync server
(src/gemini-oden-extension/mcp/github-sync.py).

Strings are modelled as `List Char`.  The Python string primitives the
program uses (`strip`, `lower`, `split` with and without maxsplit,
`replace`, `startswith`, `endswith`, `in`, `int(...)`) are embedded as
executable functions below.  External collaborators (the `gh` client, the
YAML library, the clock, the filesystem) are passed in as explicit
parameters, so every operation of the program becomes a pure function of
its inputs and of those oracles.
-/

namespace Oden

/-- Whitespace recognised by Python `str.strip()` (ASCII subset). -/
def pyIsSpace (c : Char) : Bool :=
  c == ' ' || c == '\t' || c == '\n' || c == '\r' || c == '\x0b' || c == '\x0c'

/-- Python `s.strip()`: drop whitespace from both ends. -/
def pyStrip (s : List Char) : List Char :=
  ((s.dropWhile pyIsSpace).reverse.dropWhile pyIsSpace).reverse

/-- Python `s.lower()`. -/
def pyLower (s : List Char) : List Char :=
  s.map Char.toLower

/-- Python `s.startswith(p)`: `p` begins `s`. -/
def leadsWith : List Char → List Char → Bool
  | [], _ => true
  | _ :: _, [] => false
  | a :: as, b :: bs => a == b && leadsWith as bs

/-- Python `s.endswith(p)`. -/
def trailsWith (p s : List Char) : Bool :=
  leadsWith p.reverse s.reverse

/-- Python `p in s` (substring test). -/
def containsSub (pat : List Char) : List Char → Bool
  | [] => leadsWith pat []
  | c :: s => leadsWith pat (c :: s) || containsSub pat s

/-- Fuel-driven core of Python `s.split(sep, maxsplit)`.  The fuel is an
upper bound on the number of characters still to be consumed; with fuel at
least `s.length` the function realises the exact Python semantics for a
non-empty separator. -/
def pySplitGo (pat : List Char) : Nat → Nat → List Char → List Char → List (List Char)
  | 0, _, s, acc => [acc ++ s]
  | _ + 1, 0, s, acc => [acc ++ s]
  | fuel + 1, n + 1, s, acc =>
    if pat ≠ [] ∧ leadsWith pat s = true then
      acc :: pySplitGo pat fuel n (s.drop pat.length) []
    else
      match s with
      | [] => [acc]
      | c :: s' => pySplitGo pat fuel (n + 1) s' (acc ++ [c])

/-- Python `s.split(sep, maxsplit = n)` for a non-empty `sep`. -/
def pySplitN (pat : List Char) (n : Nat) (s acc : List Char) : List (List Char) :=
  pySplitGo pat (s.length + 1) n s acc

/-- Python `s.split(sep)` (unlimited splits, non-empty `sep`). -/
def pySplit (pat s : List Char) : List (List Char) :=
  pySplitN pat s.length s []

/-- Fuel-driven core of Python `s.replace(pat, repl)` for non-empty `pat`
(the program only ever replaces the non-empty patterns `".git"` and
`"[<epic>] "`). -/
def pyReplaceGo (pat repl : List Char) : Nat → List Char → List Char
  | 0, s => s
  | fuel + 1, s =>
    if pat ≠ [] ∧ leadsWith pat s = true then
      repl ++ pyReplaceGo pat repl fuel (s.drop pat.length)
    else
      match s with
      | [] => []
      | c :: s' => c :: pyReplaceGo pat repl fuel s'

/-- Python `s.replace(pat, repl)` for non-empty `pat`: every
non-overlapping occurrence, scanned left to right, is replaced. -/
def pyReplace (pat repl s : List Char) : List Char :=
  pyReplaceGo pat repl s.length s

/-- Decimal digits of a natural number, most significant first
(the rendering Python `str` gives for a non-negative int). -/
def natReprAux : Nat → Nat → List Char → List Char
  | 0, _, acc => acc
  | fuel + 1, n, acc =>
    if n = 0 then acc else natReprAux fuel (n / 10) (Nat.digitChar (n % 10) :: acc)

/-- Python `str(n)` for a natural number. -/
def natRepr (n : Nat) : List Char :=
  if n = 0 then ['0'] else natReprAux (n + 1) n []

/-- Python `str(n)` for an int. -/
def intRepr : Int → List Char
  | Int.ofNat m => natRepr m
  | Int.negSucc m => '-' :: natRepr (m + 1)

/-- Consume `digit (("_")? digit)*` after the first digit has been read
into `acc`; `none` on a stray underscore or a non-digit character.
This is the digit-group grammar of Python `int(str)` (ASCII digits). -/
def digitRunAux : Nat → List Char → Option Nat
  | acc, [] => some acc
  | acc, c :: rest =>
    if c = '_' then
      match rest with
      | c' :: rest' =>
        if c'.isDigit then digitRunAux (acc * 10 + (c'.toNat - 48)) rest' else none
      | [] => none
    else if c.isDigit then digitRunAux (acc * 10 + (c.toNat - 48)) rest else none

/-- A whole non-empty run of digits (underscore separators allowed). -/
def digitRun : List Char → Option Nat
  | [] => none
  | c :: rest => if c.isDigit then digitRunAux (c.toNat - 48) rest else none

/-- Python `int(s)` on a string: surrounding whitespace stripped, optional
sign, then a digit run; `none` models the `ValueError`.  (ASCII decimal
digits; the program only ever converts URL path segments.) -/
def pyInt (s : List Char) : Option Int :=
  match pyStrip s with
  | [] => none
  | c :: rest =>
    if c = '+' then (digitRun rest).map Int.ofNat
    else if c = '-' then (digitRun rest).map (fun n => -(n : Int))
    else (digitRun (c :: rest)).map Int.ofNat

/-- Split a string at every newline (used to state the checklist claims;
Python-side this is `str.split('\n')`). -/
def splitLines : List Char → List (List Char)
  | [] => [[]]
  | c :: s =>
    if c = '\n' then [] :: splitLines s
    else
      match splitLines s with
      | [] => [[c]]
      | l :: ls => (c :: l) :: ls

/-- A YAML scalar or list value as seen by the program. -/
inductive YVal where
  | str (v : List Char)
  | int (v : Int)
  | list (v : List YVal)
  | null

mutual

/-- Python `repr` of a YAML value (used inside rendered lists). -/
def pyRepr : YVal → List Char
  | .str s => '\'' :: s ++ ['\'']
  | .int n => intRepr n
  | .null => "None".data
  | .list l => '[' :: pyReprList l ++ [']']

/-- Comma-separated `repr`s of the elements of a Python list. -/
def pyReprList : List YVal → List Char
  | [] => []
  | [v] => pyRepr v
  | v :: vs => pyRepr v ++ ", ".data ++ pyReprList vs

end

/-- Python `str()` of a YAML value, as an f-string renders it. -/
def pyStr : YVal → List Char
  | .str s => s
  | v => pyRepr v

/-- Python truthiness of a YAML value (`if task.get('work_stream'):`). -/
def pyTruthy : YVal → Bool
  | .str s => !s.isEmpty
  | .int n => n ≠ 0
  | .list l => !l.isEmpty
  | .null => false

/-- A parsed metadata block: insertion-ordered key/value pairs
(modelling the Python dict returned by `yaml.safe_load`). -/
abbrev FM := List (List Char × YVal)

/-- Dict lookup (first matching key). -/
def fmGet : FM → List Char → Option YVal
  | [], _ => none
  | (k', v) :: t, k => if k' = k then some v else fmGet t k

/-- Python `d[k] = v` on an insertion-ordered dict: overwrite in place if
the key exists, append otherwise. -/
def dictSet (fm : FM) (k : List Char) (v : YVal) : FM :=
  if (fmGet fm k).isSome then
    fm.map (fun p => if p.1 = k then (k, v) else p)
  else fm ++ [(k, v)]

/-- Outcome of `yaml.safe_load`: a mapping, some non-mapping value
(including `None` for an empty document), or a parse error. -/
inductive YamlRes where
  | dict (fm : FM)
  | other
  | err
  deriving Inhabited

/-- Result of one `run_command` call: exit status and captured streams. -/
structure CmdResult where
  returncode : Int
  stdout : List Char
  stderr : List Char
  deriving DecidableEq

/-- Result dict of `get_repository_info` (missing keys modelled as `[]`). -/
structure RepoInfo where
  success : Bool
  repo : List Char
  url : List Char
  error : List Char
  deriving DecidableEq

/-- `get_repository_info`, as a function of the result of
`git remote get-url origin`.  Mirrors lines 180-210 of the source:
no-remote check, `template`/`example` rejection, host check, then the
SSH-style (`split(':')[1]`) or HTTPS-style (`split('github.com/')[1]`)
extraction with `.replace('.git', '')`; a missing index is the caught
`IndexError`. -/
def get_repository_info (remote : CmdResult) : RepoInfo :=
  if remote.returncode ≠ 0 then
    ⟨false, [], [], "❌ No git remote origin found".data⟩
  else
    if containsSub "template".data (pyLower (pyStrip remote.stdout))
        || containsSub "example".data (pyLower (pyStrip remote.stdout)) then
      ⟨false, [], [],
        "❌ Cannot sync to template repository. Please fork or create your own repository first.".data⟩
    else if containsSub "github.com".data (pyStrip remote.stdout) then
      if leadsWith "git@".data (pyStrip remote.stdout) then
        match (pySplit ":".data (pyStrip remote.stdout)).get? 1 with
        | some seg => ⟨true, pyReplace ".git".data [] seg, pyStrip remote.stdout, []⟩
        | none =>
          ⟨false, [], [], "❌ Error getting repository info: list index out of range".data⟩
      else
        match (pySplit "github.com/".data (pyStrip remote.stdout)).get? 1 with
        | some seg => ⟨true, pyReplace ".git".data [] seg, pyStrip remote.stdout, []⟩
        | none =>
          ⟨false, [], [], "❌ Error getting repository info: list index out of range".data⟩
    else
      ⟨false, [], [], "❌ Not a GitHub repository".data⟩

/-- The task dict built by `read_task_file`. -/
structure TaskData where
  filepath : List Char
  filename : List Char
  frontmatter : FM
  body : List Char
  title : YVal
  epic : YVal
  work_stream : YVal
  labels : YVal

/-- What one `read_task_file` call produces: maybe a task, and whether the
error path printed a log line. -/
structure ReadResult where
  task : Option TaskData
  logged : Bool

/-- `os.path.basename` for slash-separated paths. -/
def basename (p : List Char) : List Char :=
  (pySplit "/".data p).getLastD []

/-- `read_task_file` on the file's content (lines 229-257): require the
leading `---` marker, split off the frontmatter with `split('---', 2)`,
parse it with YAML, strip the body.  A non-mapping YAML result makes the
subsequent `.get` calls raise, which the handler logs; the two structural
early returns at line 253 do not log. -/
def read_task_file (yparse : List Char → YamlRes) (filepath content : List Char) :
    ReadResult :=
  if leadsWith "---".data content then
    if 3 ≤ (pySplitN "---".data 2 content []).length then
      match yparse ((pySplitN "---".data 2 content []).getD 1 []) with
      | .dict fm =>
        { task := some
            { filepath := filepath
              filename := basename filepath
              frontmatter := fm
              body := pyStrip ((pySplitN "---".data 2 content []).getD 2 [])
              title := (fmGet fm "name".data).getD (.str "Untitled Task".data)
              epic := (fmGet fm "epic".data).getD .null
              work_stream := (fmGet fm "work_stream".data).getD .null
              labels := (fmGet fm "labels".data).getD (.list []) }
          logged := false }
      | _ => { task := none, logged := true }
    else { task := none, logged := false }
  else { task := none, logged := false }

/-- The tasks directory as the program sees it: existence flag, directory
listing, and file contents (`none` = unreadable file, whose read raises
and is logged). -/
structure FS where
  tasksDir : List Char
  dirExists : Bool
  listing : List (List Char)
  content : List Char → Option (List Char)

/-- `os.path.join` for the paths the program builds. -/
def joinPath (dir nm : List Char) : List Char :=
  dir ++ '/' :: nm

/-- Read one task file through the filesystem. -/
def readTaskFromFS (yparse : List Char → YamlRes) (fs : FS) (nm : List Char) :
    ReadResult :=
  match fs.content nm with
  | none => { task := none, logged := true }
  | some c => read_task_file yparse (joinPath fs.tasksDir nm) c

/-- The filename filter of `find_epic_tasks`:
`filename.startswith(f"{epic_name}-task-") and filename.endswith('.md')`. -/
def isTaskFile (epic nm : List Char) : Bool :=
  leadsWith (epic ++ "-task-".data) nm && trailsWith ".md".data nm

/-- `find_epic_tasks` (lines 212-227): empty when the directory is
missing, otherwise the parsed tasks of the matching directory entries,
skipping files that fail to parse. -/
def find_epic_tasks (yparse : List Char → YamlRes) (fs : FS) (epic : List Char) :
    List TaskData :=
  if fs.dirExists then
    (fs.listing.filter (isTaskFile epic)).filterMap
      (fun nm => (readTaskFromFS yparse fs nm).task)
  else []

/-- The issue dict returned by `create_github_issue` (missing keys
modelled as `[]`). -/
structure IssueRecord where
  success : Bool
  number : List Char
  url : List Char
  title : List Char
  error : List Char
  deriving DecidableEq

/-- The duck-typed argument of `create_github_issue`: a task dict from
`read_task_file` (it has a `frontmatter` key) or direct issue data. -/
inductive IssueInput where
  | fromFile (t : TaskData)
  | direct (title body : List Char) (labels : List YVal)

/-- The issue title composed at lines 265 / 272. -/
def prepTitle : IssueInput → List Char
  | .fromFile t => '[' :: pyStr t.epic ++ "] ".data ++ pyStr t.title
  | .direct ti _ _ => ti

/-- The issue body chosen at lines 266 / 273. -/
def prepBody : IssueInput → List Char
  | .fromFile t => t.body
  | .direct _ b _ => b

/-- The label list composed at lines 267-269:
`['oden-epic', task['epic']] + task.get('labels', [])`, plus the
work-stream value when truthy.  `none` models the `TypeError` raised when
the document's `labels` value is not a list. -/
def prepLabels : IssueInput → Option (List YVal)
  | .fromFile t =>
    match t.labels with
    | .list l =>
      some (YVal.str "oden-epic".data :: t.epic :: l
        ++ (if pyTruthy t.work_stream then [t.work_stream] else []))
    | _ => none
  | .direct _ _ ls => some ls

/-- `create_github_issue` (lines 259-318) as a function of the prepared
input and of the `gh issue create` outcome.  On exit status zero the
stripped stdout is the issue URL and the issue number is its trailing
`/`-segment; otherwise a failure record carrying stderr.  The composition
`TypeError` is caught by the outer handler (its runtime message is
abstracted). -/
def create_github_issue (inp : IssueInput) (gh : CmdResult) : IssueRecord :=
  match prepLabels inp with
  | none =>
    { success := false, number := [], url := [], title := [],
      error := "can only concatenate list".data }
  | some _ =>
    if gh.returncode = 0 then
      { success := true
        number := (pySplit "/".data (pyStrip gh.stdout)).getLastD []
        url := pyStrip gh.stdout
        title := prepTitle inp
        error := [] }
    else
      { success := false, number := [], url := [], title := [],
        error := "Failed to create issue: ".data ++ gh.stderr }

/-- The five metadata keys `update_task_with_issue` writes. -/
def fiveKeys : List (List Char) :=
  ["github_issue".data, "github_url".data, "synced_at".data,
   "sync_status".data, "updated".data]

/-- The frontmatter after the five assignments of lines 326-330. -/
def updatedFrontmatter (t : TaskData) (rec : IssueRecord) (n : Int)
    (synced_at updated_at : List Char) : FM :=
  dictSet (dictSet (dictSet (dictSet (dictSet t.frontmatter
    "github_issue".data (.int n))
    "github_url".data (.str rec.url))
    "synced_at".data (.str synced_at))
    "sync_status".data (.str "created".data))
    "updated".data (.str updated_at)

/-- The file content`update_task_with_issue` writes (line 334), or `none`
when `int(issue_result['number'])` raises before anything is written.
`dump` is the `yaml.dump` oracle; the timestamps are the two
`get_current_iso_datetime()` readings. -/
def updatedContent (dump : FM → List Char) (synced_at updated_at : List Char)
    (t : TaskData) (rec : IssueRecord) : Option (List Char) :=
  match pyInt rec.number with
  | none => none
  | some n =>
    some ("---\n".data ++ dump (updatedFrontmatter t rec n synced_at updated_at)
      ++ "---\n\n".data ++ t.body)

/-- `update_task_with_issue` (lines 320-340) acting on the current disk
content of the task file: on success the file is rewritten, on an
exception the handler logs and the file is untouched. -/
def update_task_with_issue (dump : FM → List Char) (synced_at updated_at : List Char)
    (t : TaskData) (rec : IssueRecord) (disk : List Char) : List Char × Bool :=
  match updatedContent dump synced_at updated_at t rec with
  | some c => (c, false)
  | none => (disk, true)

/-- One checklist entry of the epic tracking issue (line 353):
`- [ ] #<number>: <title with every '[<epic>] ' occurrence removed>`. -/
def checklistLine (epic : List Char) (rec : IssueRecord) : List Char :=
  "- [ ] #".data ++ rec.number ++ ": ".data
    ++ pyReplace ('[' :: epic ++ "] ".data) [] rec.title

/-- The tracking-issue body generated at lines 347-371. -/
def epicBody (epic : List Char) (tasks : List IssueRecord) : List Char :=
  "# Epic: ".data ++ epic
  ++ "\n\nThis is the tracking issue for the \"".data ++ epic
  ++ "\" epic.\n\n## 📋 Tasks\n\n".data
  ++ (List.intercalate "\n".data (tasks.map (checklistLine epic)))
  ++ "\n\n## 📊 Progress\n\n- **Total Tasks**: ".data ++ natRepr tasks.length
  ++ "\n- **Completed**: 0\n- **In Progress**: 0\n- **Todo**: ".data
  ++ natRepr tasks.length
  ++ "\n\n## 🏷️ Labels\n\n- `epic` - This is an epic tracking issue\n- `oden-epic` - Created by Oden Forge methodology\n- `".data
  ++ epic
  ++ "` - Epic identifier\n\n---\n\n*Created by Oden Forge Documentation-First Development methodology*\n".data

/-- `create_epic_tracking_issue` (lines 342-382): delegate to issue
creation with labels `epic`, `oden-epic`, `<epic>`; on failure return the
`{'number': '?', 'url': '?'}` sentinel. -/
def create_epic_tracking_issue (epic : List Char) (tasks : List IssueRecord)
    (gh : CmdResult) : IssueRecord :=
  let result := create_github_issue
    (.direct ("[EPIC] ".data ++ epic) (epicBody epic tasks)
      [.str "epic".data, .str "oden-epic".data, .str epic]) gh
  if result.success then result
  else { success := false, number := "?".data, url := "?".data, title := [], error := [] }

/-- Everything external one `sync_epic_to_github` run consumes: the YAML
library, the clock readings, the filesystem, and the outcomes of the
`gh auth status`, `git remote get-url origin` and successive
`gh issue create` invocations (in call order). -/
structure SyncEnv where
  yparse : List Char → YamlRes
  dump : FM → List Char
  synced_at : List Char
  updated_at : List Char
  fs : FS
  auth : CmdResult
  remote : CmdResult
  gh : Nat → CmdResult

/-- The per-task loop of lines 59-65: attempt one issue per task (the
`k`-th task uses the `k`-th `gh issue create` outcome), collect the
successful records in order and the file rewrites they cause. -/
def syncLoop (env : SyncEnv) : List TaskData → Nat →
    List IssueRecord × List (List Char × List Char)
  | [], _ => ([], [])
  | t :: ts, k =>
    let r := create_github_issue (.fromFile t) (env.gh k)
    let rest := syncLoop env ts (k + 1)
    if r.success then
      match updatedContent env.dump env.synced_at env.updated_at t r with
      | some c => (r :: rest.1, (t.filepath, c) :: rest.2)
      | none => (r :: rest.1, rest.2)
    else rest

/-- The text of the "no tasks" response (line 54). -/
def noTasksText (epic : List Char) : List Char :=
  "No tasks found for epic '".data ++ epic ++ "'. Run /oden:tasks ".data
    ++ epic ++ " first.".data

/-- The success summary of lines 70-82. -/
def summaryText (epic : List Char) (created : List IssueRecord)
    (epicIssue : IssueRecord) (repo : List Char) : List Char :=
  "✅ Epic '".data ++ epic ++ "' synced to GitHub\n\n📊 Results:\n- Epic tracking issue: #".data
  ++ epicIssue.number
  ++ "\n- Task issues created: ".data ++ natRepr created.length
  ++ "\n- Repository: ".data ++ repo
  ++ "\n\n📋 Issues Created:\n".data
  ++ (List.intercalate "\n".data
      (created.map (fun i => "- #".data ++ i.number ++ ": ".data ++ i.title)))
  ++ "\n\n🔗 Epic Issue: ".data ++ epicIssue.url
  ++ "\n\nNext: Use /oden:work ".data ++ epic ++ " to start development".data

/-- Observable outcome of one `sync_epic_to_github` run: the response
(text plus error flag — success dicts carry no `isError` key, modelled as
`false`), the created records, the task-file writes, and the body sent to
the tracking-issue creation call. -/
structure SyncResult where
  text : List Char
  isError : Bool
  created : List IssueRecord
  writes : List (List Char × List Char)
  trackingBody : List Char
  deriving DecidableEq

/-- `sync_epic_to_github` (lines 26-90): auth gate, repository gate,
task discovery (empty ⇒ informational response), per-task creation and
file update, tracking issue, summary. -/
def sync_epic_to_github (env : SyncEnv) (epic : List Char) : SyncResult :=
  if env.auth.returncode ≠ 0 then
    { text := "❌ GitHub CLI not authenticated. Run: gh auth login".data,
      isError := true, created := [], writes := [], trackingBody := [] }
  else
    let repoInfo := get_repository_info env.remote
    if repoInfo.success = false then
      { text := repoInfo.error, isError := true, created := [], writes := [],
        trackingBody := [] }
    else
      let tasks := find_epic_tasks env.yparse env.fs epic
      if tasks.isEmpty then
        { text := noTasksText epic, isError := false, created := [], writes := [],
          trackingBody := [] }
      else
        let step := syncLoop env tasks 0
        let epicIssue := create_epic_tracking_issue epic step.1 (env.gh tasks.length)
        { text := summaryText epic step.1 epicIssue repoInfo.repo
          isError := false
          created := step.1
          writes := step.2
          trackingBody := epicBody epic step.1 }

/-- Index-tagged copy of a list, tagging from `k` (used to state which
`gh` call each task consumed). -/
def withIdx : Nat → List TaskData → List (Nat × TaskData)
  | _, [] => []
  | k, t :: ts => (k, t) :: withIdx (k + 1) ts

/-- The pattern of the `.git`-suffix removal. -/
def dotGit : List Char := ['.', 'g', 'i', 't']

/-- A filesystem whose tasks directory does not exist (test fixture). -/
def emptyFS : FS :=
  { tasksDir := "docs/development/current/tasks".data, dirExists := false,
    listing := [], content := fun _ => none }

/-- A sync environment over `emptyFS` with passing auth and repository
checks (test fixture). -/
def envNoDir : SyncEnv :=
  { yparse := fun _ => .err, dump := fun _ => [], synced_at := [],
    updated_at := [], fs := emptyFS, auth := ⟨0, [], []⟩,
    remote := ⟨0, "https://github.com/o/r".data, []⟩,
    gh := fun _ => ⟨1, [], []⟩ }

/-- A one-key metadata block (test fixture). -/
def fmW : FM := [("x".data, .int 1)]

/-- `fmW` after the five update assignments (test fixture). -/
def fm5W : FM :=
  [("x".data, .int 1), ("github_issue".data, .int 7),
   ("github_url".data, .str "u".data), ("synced_at".data, .str "T1".data),
   ("sync_status".data, .str "created".data), ("updated".data, .str "T2".data)]

/-- A YAML oracle recognising the two metadata texts of the round-trip
fixture. -/
def yparseW : List Char → YamlRes := fun s =>
  if s = "\nx: 1\n".data then .dict fmW
  else if s = "\nd: 0\n".data then .dict fm5W
  else .err

/-- A constant YAML dumper (test fixture). -/
def dumpW : FM → List Char := fun _ => "d: 0\n".data

/-- The task parsed from the round-trip fixture document. -/
def taskW : TaskData :=
  { filepath := "p.md".data, filename := "p.md".data, frontmatter := fmW,
    body := "hello".data, title := .str "Untitled Task".data, epic := .null,
    work_stream := .null, labels := .list [] }

/-- The successful issue record of the round-trip fixture. -/
def recW : IssueRecord :=
  { success := true, number := "7".data, url := "u".data, title := [], error := [] }

/-- The claim C5's reading of "title with the epic prefix stripped":
remove one leading occurrence of `[<epic>] ` (the code instead removes
every occurrence). -/
def specStripTag (epic t : List Char) : List Char :=
  if leadsWith ('[' :: epic ++ "] ".data) t then
    t.drop ('[' :: epic ++ "] ".data).length
  else t

/-- The checklist line claim C5 describes. -/
def specChecklistLine (epic : List Char) (rec : IssueRecord) : List Char :=
  "- [ ] #".data ++ rec.number ++ ": ".data ++ specStripTag epic rec.title

/-- The generated tracking-issue body, line by line.  An empty record list
leaves one empty line where the checklist would be (the joined list is
empty, surrounded by blank lines). -/
def epicLines (e : List Char) (tasks : List IssueRecord) : List (List Char) :=
  ["# Epic: ".data ++ e, [],
   "This is the tracking issue for the \"".data ++ e ++ "\" epic.".data, [],
   "## 📋 Tasks".data, []]
  ++ (if tasks.isEmpty then [[]] else tasks.map (checklistLine e))
  ++ [[], "## 📊 Progress".data, [],
      "- **Total Tasks**: ".data ++ natRepr tasks.length,
      "- **Completed**: 0".data,
      "- **In Progress**: 0".data,
      "- **Todo**: ".data ++ natRepr tasks.length, [],
      "## 🏷️ Labels".data, [],
      "- `epic` - This is an epic tracking issue".data,
      "- `oden-epic` - Created by Oden Forge methodology".data,
      "- `".data ++ e ++ "` - Epic identifier".data, [],
      "---".data, [],
      "*Created by Oden Forge Documentation-First Development methodology*".data, []]

/-- The metadata block of the mixed-outcome fixture documents. -/
def fmM : FM := [("epic".data, .str "auth".data)]

/-- The YAML oracle of the mixed-outcome fixture. -/
def yparseM : List Char → YamlRes := fun s =>
  if s = "\nepic: auth\n".data then .dict fmM else .err

/-- The filesystem of the mixed-outcome fixture: two task documents of the
`auth` epic. -/
def fsM : FS :=
  { tasksDir := "docs/development/current/tasks".data
    dirExists := true
    listing := ["auth-task-1.md".data, "auth-task-2.md".data]
    content := fun nm =>
      if nm = "auth-task-1.md".data then
        some "---\nepic: auth\n---\n\nbody one".data
      else if nm = "auth-task-2.md".data then
        some "---\nepic: auth\n---\n\nbody two".data
      else none }

/-- The tracker-client outcomes of the mixed-outcome fixture: the first
task's creation succeeds, the second fails, the tracking issue succeeds. -/
def ghM : Nat → CmdResult
  | 0 => ⟨0, "https://github.com/o/r/issues/1\n".data, []⟩
  | 1 => ⟨1, [], "boom".data⟩
  | _ => ⟨0, "https://github.com/o/r/issues/9\n".data, []⟩

/-- The mixed-outcome sync environment (test fixture). -/
def envM : SyncEnv :=
  { yparse := yparseM, dump := dumpW, synced_at := "T1".data,
    updated_at := "T2".data, fs := fsM, auth := ⟨0, [], []⟩,
    remote := ⟨0, "https://github.com/o/r.git\n".data, []⟩,
    gh := ghM }

/-! ### Basic facts about the embedded string primitives -/

theorem leadsWith_append (p t : List Char) : leadsWith p (p ++ t) = true := by
  induction p with
  | nil => rfl
  | cons a as ih => simp [leadsWith, ih]

theorem leadsWith_right {p s : List Char} (h : leadsWith p s = true) (t : List Char) :
    leadsWith p (s ++ t) = true := by
  induction p generalizing s with
  | nil => rfl
  | cons a as ih =>
    cases s with
    | nil => simp [leadsWith] at h
    | cons b bs =>
      simp only [leadsWith, Bool.and_eq_true] at h ⊢
      exact ⟨h.1, ih h.2 ⟩

theorem leadsWith_left {p s t : List Char} (h : leadsWith p (s ++ t) = true)
    (hl : p.length ≤ s.length) : leadsWith p s = true := by
  induction p generalizing s with
  | nil => rfl
  | cons a as ih =>
    cases s with
    | nil => simp at hl
    | cons b bs =>
      simp only [List.cons_append, leadsWith, Bool.and_eq_true] at h ⊢
      exact ⟨h.1, ih h.2 (by simpa using hl)⟩

theorem leadsWith_length {p s : List Char} (h : leadsWith p s = true) :
    p.length ≤ s.length := by
  induction p generalizing s with
  | nil => simp
  | cons a as ih =>
    cases s with
    | nil => simp [leadsWith] at h
    | cons b bs =>
      simp only [leadsWith, Bool.and_eq_true] at h
      simpa using ih h.2

theorem leadsWith_iff_ex {p s : List Char} : leadsWith p s = true ↔ ∃ t, s = p ++ t := by
  constructor
  · intro h
    induction p generalizing s with
    | nil => exact ⟨s, rfl⟩
    | cons a as ih =>
      cases s with
      | nil => simp [leadsWith] at h
      | cons b bs =>
        simp only [leadsWith, Bool.and_eq_true, beq_iff_eq] at h
        obtain ⟨t, ht⟩ := ih h.2
        exact ⟨t, by simp [h.1, ht]⟩
  · rintro ⟨t, rfl⟩
    exact leadsWith_append p t

theorem containsSub_middle (pat a b : List Char) :
    containsSub pat (a ++ pat ++ b) = true := by
  induction a with
  | nil =>
    cases h : pat ++ b with
    | nil =>
      have hp : pat = [] := by
        cases pat with
        | nil => rfl
        | cons x xs => simp at h
      have hb : b = [] := by
        subst hp
        simpa using h
      simp [hp, hb, containsSub, leadsWith]
    | cons c s =>
      simp only [List.nil_append, containsSub, h]
      rw [← h]
      simp [leadsWith_append]
  | cons c cs ih =>
    simp only [List.cons_append, containsSub, Bool.or_eq_true]
    exact Or.inr ih

theorem containsSub_of_sub {pat s : List Char} (h : containsSub pat s = true)
    (t : List Char) : containsSub pat (s ++ t) = true := by
  induction s with
  | nil =>
    cases pat with
    | nil => simpa [containsSub] using containsSub_middle [] [] t
    | cons a as => simp [containsSub, leadsWith] at h
  | cons c cs ih =>
    simp only [containsSub, Bool.or_eq_true] at h
    rcases h with h | h
    · simp only [List.cons_append, containsSub, Bool.or_eq_true]
      exact Or.inl (leadsWith_right h t)
    · simp only [List.cons_append, containsSub, Bool.or_eq_true]
      exact Or.inr (ih h)

/-! ### The split function: fuel irrelevance and unfolding equations -/

theorem pySplitGo_fuel (pat : List Char) :
    ∀ (f₁ : Nat) (f₂ n : Nat) (s acc : List Char), s.length ≤ f₁ → s.length ≤ f₂ →
      pySplitGo pat f₁ n s acc = pySplitGo pat f₂ n s acc := by
  intro f₁
  induction f₁ with
  | zero =>
    intro f₂ n s acc h₁ h₂
    have hs : s = [] := by
      cases s with
      | nil => rfl
      | cons c cs => simp at h₁
    subst hs
    cases f₂ with
    | zero => rfl
    | succ f₂ =>
      cases n with
      | zero => rfl
      | succ n =>
        cases pat with
        | nil => simp [pySplitGo]
        | cons p ps => simp [pySplitGo, leadsWith]
  | succ f₁ ih =>
    intro f₂ n s acc h₁ h₂
    cases f₂ with
    | zero =>
      have hs : s = [] := by
        cases s with
        | nil => rfl
        | cons c cs => simp at h₂
      subst hs
      cases n with
      | zero => rfl
      | succ n =>
        cases pat with
        | nil => simp [pySplitGo]
        | cons p ps => simp [pySplitGo, leadsWith]
    | succ f₂ =>
      cases n with
      | zero => rfl
      | succ n =>
        by_cases hc : pat ≠ [] ∧ leadsWith pat s = true
        · have hplen : 1 ≤ pat.length := by
            cases pat with
            | nil => exact absurd rfl hc.1
            | cons p ps => simp
          have hslen : pat.length ≤ s.length := leadsWith_length hc.2
          simp only [pySplitGo, if_pos hc]
          have := ih f₂ n (s.drop pat.length) []
            (by simp; omega) (by simp; omega)
          rw [this]
        · simp only [pySplitGo, if_neg hc]
          cases s with
          | nil => rfl
          | cons c cs =>
            exact ih f₂ (n + 1) cs (acc ++ [c]) (by simp at h₁ ⊢; omega)
              (by simp at h₂ ⊢; omega)

theorem pySplitN_zero (pat s acc : List Char) : pySplitN pat 0 s acc = [acc ++ s] := by
  simp [pySplitN, pySplitGo]

theorem pySplitN_nil (pat acc : List Char) (n : Nat) :
    pySplitN pat (n + 1) [] acc = [acc] := by
  cases pat with
  | nil => simp [pySplitN, pySplitGo]
  | cons p ps => simp [pySplitN, pySplitGo, leadsWith]

theorem pySplitN_match {pat s : List Char} (hp : pat ≠ []) (hl : leadsWith pat s = true)
    (n : Nat) (acc : List Char) :
    pySplitN pat (n + 1) s acc = acc :: pySplitN pat n (s.drop pat.length) [] := by
  have hslen : pat.length ≤ s.length := leadsWith_length hl
  have hplen : 1 ≤ pat.length := by
    cases pat with
    | nil => exact absurd rfl hp
    | cons p ps => simp
  cases s with
  | nil =>
    exfalso
    cases pat with
    | nil => exact hp rfl
    | cons p ps => simp [leadsWith] at hl
  | cons c cs =>
    simp only [pySplitN]
    simp only [List.length_cons, pySplitGo, if_pos (And.intro hp hl)]
    congr 1
    exact pySplitGo_fuel pat (cs.length + 1) ((List.drop pat.length (c :: cs)).length + 1)
      n (List.drop pat.length (c :: cs)) []
      (by simp only [List.length_drop, List.length_cons]; omega) (by omega)

theorem pySplitN_cons {pat : List Char} {c : Char} {s : List Char}
    (h : ¬(pat ≠ [] ∧ leadsWith pat (c :: s) = true)) (n : Nat) (acc : List Char) :
    pySplitN pat (n + 1) (c :: s) acc = pySplitN pat (n + 1) s (acc ++ [c]) := by
  simp only [pySplitN, List.length_cons, pySplitGo, if_neg h]

theorem pySplitN_no_match {pat s : List Char}
    (h : ∀ k, leadsWith pat (s.drop k) = false) :
    ∀ (n : Nat) (acc : List Char), pySplitN pat n s acc = [acc ++ s] := by
  induction s with
  | nil =>
    intro n acc
    cases n with
    | zero => exact pySplitN_zero pat [] acc
    | succ n => simp [pySplitN_nil]
  | cons c cs ih =>
    intro n acc
    cases n with
    | zero => exact pySplitN_zero pat (c :: cs) acc
    | succ n =>
      have h0 : leadsWith pat (c :: cs) = false := by simpa using h 0
      rw [pySplitN_cons (by simp [h0]) n acc]
      rw [ih (fun k => by simpa using h (k + 1)) (n + 1) (acc ++ [c])]
      simp

theorem pySplitN_boundary {pat : List Char} (ys : List Char) (hp : pat ≠ []) :
    ∀ (xs : List Char),
      (∀ k, k < xs.length → leadsWith pat ((xs ++ pat ++ ys).drop k) = false) →
      ∀ (n : Nat) (acc : List Char),
        pySplitN pat (n + 1) (xs ++ pat ++ ys) acc = (acc ++ xs) :: pySplitN pat n ys [] := by
  intro xs
  induction xs with
  | nil =>
    intro _ n acc
    simp only [List.nil_append]
    rw [pySplitN_match hp (leadsWith_append pat ys) n acc]
    simp [List.drop_left]
  | cons c cs ih =>
    intro h n acc
    have h0 : leadsWith pat (c :: (cs ++ pat ++ ys)) = false := by
      have h' := h 0 (by simp)
      simpa using h'
    have hcond : ¬(pat ≠ [] ∧ leadsWith pat (c :: (cs ++ pat ++ ys)) = true) := by
      rintro ⟨-, hl⟩
      rw [h0] at hl
      exact Bool.false_ne_true hl
    have step := pySplitN_cons hcond n acc
    have hrest := ih (fun k hk => by
      have h' := h (k + 1) (by simpa using Nat.succ_lt_succ hk)
      simpa using h') n (acc ++ [c])
    calc pySplitN pat (n + 1) ((c :: cs) ++ pat ++ ys) acc
        = pySplitN pat (n + 1) (c :: (cs ++ pat ++ ys)) acc := by simp
      _ = pySplitN pat (n + 1) (cs ++ pat ++ ys) (acc ++ [c]) := step
      _ = ((acc ++ [c]) ++ cs) :: pySplitN pat n ys [] := hrest
      _ = (acc ++ (c :: cs)) :: pySplitN pat n ys [] := by simp

/-! ### The replace function: fuel irrelevance and unfolding equations -/

theorem pyReplaceGo_fuel (pat repl : List Char) :
    ∀ (f₁ f₂ : Nat) (s : List Char), s.length ≤ f₁ → s.length ≤ f₂ →
      pyReplaceGo pat repl f₁ s = pyReplaceGo pat repl f₂ s := by
  intro f₁
  induction f₁ with
  | zero =>
    intro f₂ s h₁ h₂
    have hs : s = [] := by
      cases s with
      | nil => rfl
      | cons c cs => simp at h₁
    subst hs
    cases f₂ with
    | zero => rfl
    | succ f₂ =>
      cases pat with
      | nil => simp [pyReplaceGo]
      | cons p ps => simp [pyReplaceGo, leadsWith]
  | succ f₁ ih =>
    intro f₂ s h₁ h₂
    cases f₂ with
    | zero =>
      have hs : s = [] := by
        cases s with
        | nil => rfl
        | cons c cs => simp at h₂
      subst hs
      cases pat with
      | nil => simp [pyReplaceGo]
      | cons p ps => simp [pyReplaceGo, leadsWith]
    | succ f₂ =>
      by_cases hc : pat ≠ [] ∧ leadsWith pat s = true
      · have hplen : 1 ≤ pat.length := by
          cases pat with
          | nil => exact absurd rfl hc.1
          | cons p ps => simp
        have hslen : pat.length ≤ s.length := leadsWith_length hc.2
        simp only [pyReplaceGo, if_pos hc]
        rw [ih f₂ (s.drop pat.length) (by simp; omega) (by simp; omega)]
      · simp only [pyReplaceGo, if_neg hc]
        cases s with
        | nil => rfl
        | cons c cs =>
          show c :: pyReplaceGo pat repl f₁ cs = c :: pyReplaceGo pat repl f₂ cs
          rw [ih f₂ cs (by simp at h₁ ⊢; omega) (by simp at h₂ ⊢; omega)]

theorem pyReplace_nil (pat repl : List Char) : pyReplace pat repl [] = [] := rfl

theorem pyReplace_match {pat s : List Char} (hp : pat ≠ []) (hl : leadsWith pat s = true)
    (repl : List Char) :
    pyReplace pat repl s = repl ++ pyReplace pat repl (s.drop pat.length) := by
  have hslen : pat.length ≤ s.length := leadsWith_length hl
  have hplen : 1 ≤ pat.length := by
    cases pat with
    | nil => exact absurd rfl hp
    | cons p ps => simp
  cases s with
  | nil =>
    exfalso
    cases pat with
    | nil => exact hp rfl
    | cons p ps => simp [leadsWith] at hl
  | cons c cs =>
    simp only [pyReplace, List.length_cons, pyReplaceGo, if_pos (And.intro hp hl)]
    congr 1
    exact pyReplaceGo_fuel pat repl cs.length (List.drop pat.length (c :: cs)).length
      (List.drop pat.length (c :: cs))
      (by simp only [List.length_drop, List.length_cons]; omega) (by omega)

theorem pyReplace_cons {pat : List Char} {c : Char} {s : List Char}
    (h : ¬(pat ≠ [] ∧ leadsWith pat (c :: s) = true)) (repl : List Char) :
    pyReplace pat repl (c :: s) = c :: pyReplace pat repl s := by
  simp only [pyReplace, List.length_cons, pyReplaceGo, if_neg h]

/-! ### Facts about `pyStrip` -/

theorem dropWhile_head_false {p : Char → Bool} :
    ∀ {s : List Char} {c : Char}, (s.dropWhile p).head? = some c → p c = false := by
  intro s
  induction s with
  | nil => intro c h; simp [List.dropWhile] at h
  | cons a as ih =>
    intro c h
    rw [List.dropWhile_cons] at h
    by_cases hp : p a = true
    · exact ih (by simpa [hp] using h)
    · simp only [hp, if_neg] at h
      simp only [Bool.false_eq_true, if_false, List.head?_cons, Option.some.injEq] at h
      subst h
      simpa using hp

theorem dropWhile_self (p : Char → Bool) :
    ∀ s : List Char, (s.dropWhile p).dropWhile p = s.dropWhile p := by
  intro s
  induction s with
  | nil => rfl
  | cons a as ih =>
    rw [List.dropWhile_cons]
    by_cases hp : p a = true
    · simpa [hp] using ih
    · simp [hp, List.dropWhile_cons]

theorem dropWhile_eq_self_of_head {p : Char → Bool} {s : List Char}
    (h : ∀ c, s.head? = some c → p c = false) : s.dropWhile p = s := by
  cases s with
  | nil => rfl
  | cons a as => simp [List.dropWhile_cons, h a rfl]

theorem dropWhile_getLast (p : Char → Bool) :
    ∀ s : List Char, s.dropWhile p = [] ∨ (s.dropWhile p).getLast? = s.getLast? := by
  intro s
  induction s with
  | nil => exact Or.inl rfl
  | cons a as ih =>
    rw [List.dropWhile_cons]
    by_cases hp : p a = true
    · simp only [hp, if_true]
      rcases ih with h | h
      · exact Or.inl h
      · cases as with
        | nil =>
          exact Or.inl (by simp)
        | cons b bs =>
          exact Or.inr (by rw [h, List.getLast?_cons_cons])
    · simp [hp]

theorem pyStrip_dropWhile (s : List Char) :
    (pyStrip s).dropWhile pyIsSpace = pyStrip s := by
  apply dropWhile_eq_self_of_head
  intro c hc
  have h1 : (pyStrip s).head? =
      ((s.dropWhile pyIsSpace).reverse.dropWhile pyIsSpace).getLast? := by
    rw [pyStrip, List.head?_reverse]
  rcases dropWhile_getLast pyIsSpace (s.dropWhile pyIsSpace).reverse with h | h
  · rw [pyStrip, h] at hc
    simp at hc
  · rw [h1, h, List.getLast?_reverse] at hc
    exact dropWhile_head_false hc

theorem pyStrip_idem (s : List Char) : pyStrip (pyStrip s) = pyStrip s := by
  have h1 : pyStrip (pyStrip s) = ((pyStrip s).reverse.dropWhile pyIsSpace).reverse := by
    rw [pyStrip, pyStrip_dropWhile s]
  have h2 : (pyStrip s).reverse = (s.dropWhile pyIsSpace).reverse.dropWhile pyIsSpace := by
    rw [pyStrip, List.reverse_reverse]
  rw [h1, h2, dropWhile_self, ← h2, List.reverse_reverse]

theorem pyStrip_cons_ws {c : Char} (h : pyIsSpace c = true) (s : List Char) :
    pyStrip (c :: s) = pyStrip s := by
  simp [pyStrip, List.dropWhile_cons, h]

theorem pyStrip_eq_self {s : List Char} (h : ∀ c ∈ s, pyIsSpace c = false) :
    pyStrip s = s := by
  have h1 : s.dropWhile pyIsSpace = s := by
    cases s with
    | nil => rfl
    | cons a as => simp [List.dropWhile_cons, h a (by simp)]
  rw [pyStrip, h1]
  cases hr : s.reverse with
  | nil =>
    have : s = [] := by simpa using congrArg List.reverse hr
    simp [this]
  | cons b bs =>
    have hb : b ∈ s := by
      have : b ∈ s.reverse := by simp [hr]
      simpa using this
    rw [List.dropWhile_cons, h b hb]
    simp only [Bool.false_eq_true, if_false]
    rw [← hr, List.reverse_reverse]

/-! ### Facts about `splitLines` -/

theorem splitLines_ne_nil (s : List Char) : splitLines s ≠ [] := by
  induction s with
  | nil => simp [splitLines]
  | cons c cs ih =>
    rw [splitLines]
    by_cases hc : c = '\n'
    · simp [hc]
    · simp only [hc, if_neg, Bool.false_eq_true, if_false]
      cases h : splitLines cs with
      | nil => simp
      | cons l ls => simp

theorem splitLines_no_nl {s : List Char} (h : '\n' ∉ s) : splitLines s = [s] := by
  induction s with
  | nil => rfl
  | cons c cs ih =>
    have hc : ¬(c = '\n') := fun hh => h (by simp [hh])
    rw [splitLines, if_neg hc, ih (fun hm => h (by simp [hm]))]

theorem splitLines_append_nl {xs : List Char} (ys : List Char) (h : '\n' ∉ xs) :
    splitLines (xs ++ '\n' :: ys) = xs :: splitLines ys := by
  induction xs with
  | nil => simp [splitLines]
  | cons c cs ih =>
    have hc : ¬(c = '\n') := fun hh => h (by simp [hh])
    rw [List.cons_append, splitLines, if_neg hc,
      ih (fun hm => h (by simp [hm]))]

/-! ### Digits of `natRepr` -/

theorem natReprAux_chars :
    ∀ (fuel n : Nat) (acc : List Char) (c : Char), c ∈ natReprAux fuel n acc →
      c ∈ acc ∨ ∃ d, d < 10 ∧ c = Nat.digitChar d := by
  intro fuel
  induction fuel with
  | zero => intro n acc c h; exact Or.inl h
  | succ fuel ih =>
    intro n acc c h
    rw [natReprAux] at h
    by_cases hn : n = 0
    · simp only [hn, if_true] at h
      exact Or.inl h
    · simp only [hn, if_neg, Bool.false_eq_true, if_false] at h
      rcases ih (n / 10) (Nat.digitChar (n % 10) :: acc) c h with h' | h'
      · rcases List.mem_cons.mp h' with h'' | h''
        · exact Or.inr ⟨n % 10, Nat.mod_lt _ (by norm_num), h''⟩
        · exact Or.inl h''
      · exact Or.inr h'

theorem natRepr_no_nl (n : Nat) : '\n' ∉ natRepr n := by
  intro h
  rw [natRepr] at h
  by_cases hn : n = 0
  · simp [hn] at h
  · simp only [hn, if_neg, Bool.false_eq_true, if_false] at h
    rcases natReprAux_chars (n + 1) n [] '\n' h with h' | h'
    · simp at h'
    · obtain ⟨d, hd, hc⟩ := h'
      interval_cases d <;> simp_all [Nat.digitChar]

/-! ### Characters of a replacement by the empty string -/

theorem pyReplace_subset {pat : List Char} :
    ∀ (m : Nat) (s : List Char), s.length ≤ m →
      ∀ c, c ∈ pyReplace pat [] s → c ∈ s := by
  intro m
  induction m with
  | zero =>
    intro s hs c hc
    have : s = [] := by
      cases s with
      | nil => rfl
      | cons a as => simp at hs
    subst this
    rw [pyReplace_nil] at hc
    simp at hc
  | succ m ih =>
    intro s hs c hc
    by_cases hcnd : pat ≠ [] ∧ leadsWith pat s = true
    · rw [pyReplace_match hcnd.1 hcnd.2] at hc
      simp only [List.nil_append] at hc
      have hplen : 1 ≤ pat.length := by
        cases pat with
        | nil => exact absurd rfl hcnd.1
        | cons p ps => simp
      have hdlen : (s.drop pat.length).length ≤ m := by
        simp only [List.length_drop]
        have := leadsWith_length hcnd.2
        omega
      exact (List.drop_subset pat.length s) (ih (s.drop pat.length) hdlen c hc)
    · cases s with
      | nil =>
        rw [pyReplace_nil] at hc
        simp at hc
      | cons a as =>
        rw [pyReplace_cons hcnd] at hc
        rcases List.mem_cons.mp hc with h | h
        · simp [h]
        · exact List.mem_cons.mpr (Or.inr (ih as (by simpa using hs) c h))

/-! ### Dict update lemmas -/

theorem fmGet_map_set (fm : FM) (k : List Char) (v : YVal) :
    fmGet (fm.map (fun p => if p.1 = k then (k, v) else p)) k
      = if (fmGet fm k).isSome then some v else none := by
  induction fm with
  | nil => simp [fmGet]
  | cons p t ih =>
    obtain ⟨a, w⟩ := p
    by_cases ha : a = k
    · subst ha
      have h1 : (if ((a, w) : List Char × YVal).1 = a then (a, v) else (a, w))
          = (a, v) := by simp
      rw [List.map_cons, h1]
      simp [fmGet]
    · have h1 : (if ((a, w) : List Char × YVal).1 = k then (k, v) else (a, w))
          = (a, w) := by simp [ha]
      rw [List.map_cons, h1]
      simp only [fmGet, ha]
      simp only [Bool.false_eq_true, if_false]
      exact ih

theorem fmGet_map_set_other (fm : FM) (k : List Char) (v : YVal) {k' : List Char}
    (h : k' ≠ k) :
    fmGet (fm.map (fun p => if p.1 = k then (k, v) else p)) k' = fmGet fm k' := by
  induction fm with
  | nil => simp [fmGet]
  | cons p t ih =>
    obtain ⟨a, w⟩ := p
    by_cases ha : a = k
    · subst ha
      have hk : ¬(a = k') := fun hh => h hh.symm
      have h1 : (if ((a, w) : List Char × YVal).1 = a then (a, v) else (a, w))
          = (a, v) := by simp
      rw [List.map_cons, h1]
      simp only [fmGet, hk]
      simp only [Bool.false_eq_true, if_false]
      exact ih
    · have h1 : (if ((a, w) : List Char × YVal).1 = k then (k, v) else (a, w))
          = (a, w) := by simp [ha]
      rw [List.map_cons, h1]
      by_cases ha' : a = k'
      · simp [fmGet, ha']
      · simp only [fmGet, ha']
        simp only [Bool.false_eq_true, if_false]
        exact ih

theorem fmGet_append_single_same {fm : FM} {k : List Char} (v : YVal)
    (h : fmGet fm k = none) : fmGet (fm ++ [(k, v)]) k = some v := by
  induction fm with
  | nil => simp [fmGet]
  | cons p t ih =>
    obtain ⟨a, w⟩ := p
    by_cases ha : a = k
    · simp [fmGet, ha] at h
    · simp only [fmGet, ha] at h
      simp only [Bool.false_eq_true, if_false] at h
      simp only [List.cons_append, fmGet, ha]
      simp only [Bool.false_eq_true, if_false]
      exact ih h

theorem fmGet_append_single_other (fm : FM) (k : List Char) (v : YVal) {k' : List Char}
    (h : k' ≠ k) : fmGet (fm ++ [(k, v)]) k' = fmGet fm k' := by
  induction fm with
  | nil =>
    have hk : ¬(k = k') := fun hh => h hh.symm
    simp [fmGet, hk]
  | cons p t ih =>
    obtain ⟨a, w⟩ := p
    simp only [List.cons_append, fmGet]
    by_cases ha : a = k'
    · simp [ha]
    · simp only [ha]
      simp only [Bool.false_eq_true, if_false]
      exact ih

theorem fmGet_dictSet_same (fm : FM) (k : List Char) (v : YVal) :
    fmGet (dictSet fm k v) k = some v := by
  unfold dictSet
  by_cases hs : (fmGet fm k).isSome
  · rw [if_pos hs, fmGet_map_set, if_pos hs]
  · rw [if_neg hs, fmGet_append_single_same v (Option.not_isSome_iff_eq_none.mp hs)]

theorem fmGet_dictSet_other (fm : FM) (k : List Char) (v : YVal) {k' : List Char}
    (h : k' ≠ k) : fmGet (dictSet fm k v) k' = fmGet fm k' := by
  unfold dictSet
  by_cases hs : (fmGet fm k).isSome
  · rw [if_pos hs, fmGet_map_set_other fm k v h]
  · rw [if_neg hs, fmGet_append_single_other fm k v h]

theorem fmGet_dictSet_isSome (fm : FM) (k : List Char) (v : YVal) (k' : List Char) :
    (fmGet (dictSet fm k v) k').isSome ↔ ((fmGet fm k').isSome ∨ k' = k) := by
  by_cases h : k' = k
  · subst h
    simp [fmGet_dictSet_same]
  · rw [fmGet_dictSet_other fm k v h]
    simp [h]

/-! ### `leadsWith` evaluation helpers -/

theorem leadsWith_append_eval {p x : List Char} (h : p.length ≤ x.length)
    (y : List Char) : leadsWith p (x ++ y) = leadsWith p x := by
  cases hx : leadsWith p x with
  | true => exact leadsWith_right hx y
  | false =>
    cases hxy : leadsWith p (x ++ y) with
    | false => rfl
    | true => exact absurd (leadsWith_left hxy h) (by simp [hx])

/-! ### `.replace('.git', '')` is insensitive to a trailing `.git` -/

theorem replace_dotGit_append_aux :
    ∀ (m : Nat) (x : List Char), x.length ≤ m →
      pyReplace dotGit [] (x ++ dotGit) = pyReplace dotGit [] x := by
  intro m
  induction m with
  | zero =>
    intro x hx
    have : x = [] := by
      cases x with
      | nil => rfl
      | cons a as => simp at hx
    subst this
    simp only [List.nil_append]
    decide
  | succ m ih =>
    intro x hx
    cases x with
    | nil =>
      simp only [List.nil_append]
      decide
    | cons c x' =>
      by_cases hm : leadsWith dotGit ((c :: x') ++ dotGit) = true
      · by_cases hlen : dotGit.length ≤ (c :: x').length
        · have hpx : leadsWith dotGit (c :: x') = true := leadsWith_left hm hlen
          rw [pyReplace_match (by decide) hm, pyReplace_match (by decide) hpx,
            List.drop_append_of_le_length hlen]
          congr 1
          apply ih
          rw [List.length_drop]
          rw [show dotGit.length = 4 from rfl]
          simp only [List.length_cons] at hx ⊢
          omega
        · exfalso
          rw [show dotGit.length = 4 from rfl] at hlen
          have h4 : (c :: x').length ≤ 3 := by omega
          rcases x' with _ | ⟨d, _ | ⟨e, _ | ⟨f, tl⟩⟩⟩
          · simp only [dotGit, List.cons_append, List.nil_append, leadsWith,
              Bool.and_eq_true, beq_iff_eq] at hm
            exact absurd hm.2.1 (by decide)
          · simp only [dotGit, List.cons_append, List.nil_append, leadsWith,
              Bool.and_eq_true, beq_iff_eq] at hm
            exact absurd hm.2.2.1 (by decide)
          · simp only [dotGit, List.cons_append, List.nil_append, leadsWith,
              Bool.and_eq_true, beq_iff_eq] at hm
            exact absurd hm.2.2.2.1 (by decide)
          · simp at h4
      · have hcnd : ¬(dotGit ≠ [] ∧ leadsWith dotGit (c :: (x' ++ dotGit)) = true) := by
          rintro ⟨-, hl⟩
          exact hm (by simpa using hl)
        have hpx : leadsWith dotGit (c :: x') = false := by
          cases hh : leadsWith dotGit (c :: x') with
          | false => rfl
          | true =>
            exfalso
            apply hm
            have := leadsWith_right hh dotGit
            simpa using this
        have hcnd' : ¬(dotGit ≠ [] ∧ leadsWith dotGit (c :: x') = true) := by
          rintro ⟨-, hl⟩
          rw [hpx] at hl
          exact Bool.false_ne_true hl
        calc pyReplace dotGit [] ((c :: x') ++ dotGit)
            = pyReplace dotGit [] (c :: (x' ++ dotGit)) := by simp
          _ = c :: pyReplace dotGit [] (x' ++ dotGit) := pyReplace_cons hcnd []
          _ = c :: pyReplace dotGit [] x' := by
              rw [ih x' (by simp only [List.length_cons] at hx; omega)]
          _ = pyReplace dotGit [] (c :: x') := (pyReplace_cons hcnd' []).symm

theorem replace_dotGit_append (x : List Char) :
    pyReplace dotGit [] (x ++ dotGit) = pyReplace dotGit [] x :=
  replace_dotGit_append_aux x.length x le_rfl

/-! ### The last segment of an unlimited split -/

theorem pySplitN_ne_nil (pat : List Char) :
    ∀ (s : List Char) (n : Nat) (acc : List Char), pySplitN pat n s acc ≠ [] := by
  intro s
  induction s with
  | nil =>
    intro n acc
    cases n with
    | zero => rw [pySplitN_zero]; simp
    | succ n => rw [pySplitN_nil]; simp
  | cons c cs ih =>
    intro n acc
    cases n with
    | zero => rw [pySplitN_zero]; simp
    | succ n =>
      by_cases hcnd : pat ≠ [] ∧ leadsWith pat (c :: cs) = true
      · rw [pySplitN_match hcnd.1 hcnd.2]
        simp
      · rw [pySplitN_cons hcnd]
        exact ih (n + 1) (acc ++ [c])

theorem getLastD_congr {l : List (List Char)} (h : l ≠ []) (d₁ d₂ : List Char) :
    l.getLastD d₁ = l.getLastD d₂ := by
  cases l with
  | nil => exact absurd rfl h
  | cons a t => rw [List.getLastD_cons, List.getLastD_cons]

theorem leadsWith_single_false {c : Char} {ds : List Char} (h : c ∉ ds) :
    ∀ k, leadsWith [c] (ds.drop k) = false := by
  intro k
  cases hd : ds.drop k with
  | nil => rfl
  | cons a t =>
    have ha : a ∈ ds := by
      have : a ∈ ds.drop k := by simp [hd]
      exact List.mem_of_mem_drop this
    cases hl : leadsWith [c] (a :: t) with
    | false => rfl
    | true =>
      simp only [leadsWith, Bool.and_eq_true, beq_iff_eq] at hl
      exact absurd (hl.1 ▸ ha) h

theorem pySplit_slash_last_aux :
    ∀ (m : Nat) (base ds acc : List Char) (n : Nat), base.length ≤ m → '/' ∉ ds →
      (base ++ '/' :: ds).length ≤ n →
      (pySplitN ['/'] n (base ++ '/' :: ds) acc).getLastD [] = ds := by
  intro m
  induction m with
  | zero =>
    intro base ds acc n hb hds hn
    have hbase : base = [] := by
      cases base with
      | nil => rfl
      | cons a as => simp at hb
    subst hbase
    simp only [List.nil_append, List.length_cons] at hn ⊢
    obtain ⟨n', rfl⟩ : ∃ n', n = n' + 1 := ⟨n - 1, by omega⟩
    rw [pySplitN_match (by simp) (by simp [leadsWith]) n' acc]
    simp only [List.length_singleton, List.drop_one, List.tail_cons]
    rw [pySplitN_no_match (leadsWith_single_false hds) n' []]
    simp [List.getLastD_cons]
  | succ m ih =>
    intro base ds acc n hb hds hn
    cases base with
    | nil =>
      simp only [List.nil_append, List.length_cons] at hn ⊢
      obtain ⟨n', rfl⟩ : ∃ n', n = n' + 1 := ⟨n - 1, by omega⟩
      rw [pySplitN_match (by simp) (by simp [leadsWith]) n' acc]
      simp only [List.length_singleton, List.drop_one, List.tail_cons]
      rw [pySplitN_no_match (leadsWith_single_false hds) n' []]
      simp [List.getLastD_cons]
    | cons c cs =>
      have hlen : ((c :: cs) ++ '/' :: ds).length = cs.length + ds.length + 2 := by
        simp
        omega
      obtain ⟨n', rfl⟩ : ∃ n', n = n' + 1 := ⟨n - 1, by omega⟩
      by_cases hc : c = '/'
      · subst hc
        rw [show ('/' :: cs) ++ '/' :: ds = '/' :: (cs ++ '/' :: ds) by simp]
        rw [pySplitN_match (by simp) (by simp [leadsWith]) n' acc]
        simp only [List.length_singleton, List.drop_one, List.tail_cons]
        have hrec := ih cs ds [] n' (by simp only [List.length_cons] at hb; omega) hds
          (by simp at hn ⊢; omega)
        rw [List.getLastD_cons]
        rw [getLastD_congr (pySplitN_ne_nil ['/'] (cs ++ '/' :: ds) n' []) acc []]
        exact hrec
      · have hcnd : ¬((['/'] : List Char) ≠ [] ∧
            leadsWith ['/'] (c :: (cs ++ '/' :: ds)) = true) := by
          rintro ⟨-, hl⟩
          simp only [leadsWith, Bool.and_eq_true, beq_iff_eq] at hl
          exact hc hl.1.symm
        rw [show ((c :: cs) ++ '/' :: ds) = c :: (cs ++ '/' :: ds) by simp]
        rw [pySplitN_cons hcnd n' acc]
        exact ih cs ds (acc ++ [c]) (n' + 1)
          (by simp only [List.length_cons] at hb; omega) hds (by simp at hn ⊢; omega)

theorem pySplit_slash_last {base ds : List Char} (hds : '/' ∉ ds) :
    (pySplit ['/'] (base ++ '/' :: ds)).getLastD [] = ds := by
  unfold pySplit
  exact pySplit_slash_last_aux base.length base ds [] (base ++ '/' :: ds).length
    le_rfl hds le_rfl

/-! ### Digit runs and `pyInt` -/

theorem isDigit_not_space {c : Char} (h : c.isDigit = true) : pyIsSpace c = false := by
  cases hs : pyIsSpace c with
  | false => rfl
  | true =>
    exfalso
    simp only [pyIsSpace, Bool.or_eq_true, beq_iff_eq] at hs
    rcases hs with ((((hc | hc) | hc) | hc) | hc) | hc <;> subst hc <;>
      exact absurd h (by decide)

theorem digitRunAux_cons_digit {c : Char} (acc : Nat) (r : List Char)
    (hu : ¬(c = '_')) :
    digitRunAux acc (c :: r)
      = if c.isDigit then digitRunAux (acc * 10 + (c.toNat - 48)) r else none := by
  cases r with
  | nil =>
    simp only [digitRunAux]
    rw [if_neg hu]
  | cons c' r' =>
    simp only [digitRunAux]
    rw [if_neg hu]

theorem digitRun_cons (c : Char) (rest : List Char) :
    digitRun (c :: rest)
      = if c.isDigit then digitRunAux (c.toNat - 48) rest else none := by
  rw [digitRun]

theorem digitRunAux_some (acc : Nat) :
    ∀ rest : List Char, (∀ c ∈ rest, c.isDigit = true) →
      (digitRunAux acc rest).isSome = true := by
  intro rest
  induction rest generalizing acc with
  | nil => intro _; simp [digitRunAux]
  | cons c r ih =>
    intro h
    have hc : c.isDigit = true := h c (by simp)
    have hu : ¬(c = '_') := by
      rintro rfl
      exact absurd hc (by decide)
    rw [digitRunAux_cons_digit acc r hu, if_pos hc]
    exact ih _ (fun c' hc' => h c' (by simp [hc']))

theorem pyInt_digits {ds : List Char} (hne : ds ≠ [])
    (hd : ∀ c ∈ ds, c.isDigit = true) : (pyInt ds).isSome = true := by
  have hstrip : pyStrip ds = ds :=
    pyStrip_eq_self (fun c hc => isDigit_not_space (hd c hc))
  cases ds with
  | nil => exact absurd rfl hne
  | cons c rest =>
    have hc : c.isDigit = true := hd c (by simp)
    have hplus : ¬(c = '+') := by rintro rfl; exact absurd hc (by decide)
    have hminus : ¬(c = '-') := by rintro rfl; exact absurd hc (by decide)
    have h0 : pyInt (c :: rest) = (digitRun (c :: rest)).map Int.ofNat := by
      unfold pyInt
      rw [hstrip]
      show (if c = '+' then (digitRun rest).map Int.ofNat
        else if c = '-' then (digitRun rest).map (fun n => -(n : Int))
        else (digitRun (c :: rest)).map Int.ofNat) = (digitRun (c :: rest)).map Int.ofNat
      rw [if_neg hplus, if_neg hminus]
    rw [h0, digitRun_cons, if_pos hc]
    have hs := digitRunAux_some (c.toNat - 48) rest (fun c' hc' => hd c' (by simp [hc']))
    cases hr : digitRunAux (c.toNat - 48) rest with
    | none => rw [hr] at hs; simp at hs
    | some m => rfl

/-! ### Lines of an intercalated list -/

theorem intercalate_cons_cons (sep a b : List Char) (t : List (List Char)) :
    List.intercalate sep (a :: b :: t) = a ++ sep ++ List.intercalate sep (b :: t) := by
  simp [List.intercalate, List.intersperse]

theorem intercalate_singleton (sep a : List Char) :
    List.intercalate sep [a] = a := by
  simp [List.intercalate, List.intersperse]

theorem intercalate_append_ne {sep : List Char} :
    ∀ (A B : List (List Char)), A ≠ [] → B ≠ [] →
      List.intercalate sep (A ++ B)
        = List.intercalate sep A ++ sep ++ List.intercalate sep B := by
  intro A
  induction A with
  | nil => intro B hA _; exact absurd rfl hA
  | cons a A' ih =>
    intro B _ hB
    cases A' with
    | nil =>
      cases B with
      | nil => exact absurd rfl hB
      | cons b B' =>
        rw [List.singleton_append, intercalate_cons_cons, intercalate_singleton]
    | cons a' A'' =>
      have h1 : (a :: a' :: A'') ++ B = a :: a' :: (A'' ++ B) := by simp
      have h2 : a' :: (A'' ++ B) = (a' :: A'') ++ B := by simp
      rw [h1, intercalate_cons_cons sep a a' (A'' ++ B), h2, ih B (by simp) hB,
        intercalate_cons_cons sep a a' A'']
      simp [List.append_assoc]

theorem splitLines_intercalate :
    ∀ LS : List (List Char), LS ≠ [] → (∀ l ∈ LS, '\n' ∉ l) →
      splitLines (List.intercalate ['\n'] LS) = LS := by
  intro LS
  induction LS with
  | nil => intro h; exact absurd rfl h
  | cons a t ih =>
    intro _ hm
    cases t with
    | nil =>
      rw [intercalate_singleton]
      exact splitLines_no_nl (hm a (by simp))
    | cons b t' =>
      rw [intercalate_cons_cons]
      have h1 : a ++ ['\n'] ++ List.intercalate ['\n'] (b :: t')
          = a ++ '\n' :: List.intercalate ['\n'] (b :: t') := by simp
      rw [h1, splitLines_append_nl _ (hm a (by simp))]
      rw [ih (by simp) (fun l hl => hm l (by simp [hl]))]

set_option maxRecDepth 16384 in
theorem epicBody_eq_intercalate (e : List Char) (ts : List IssueRecord) :
    epicBody e ts = List.intercalate ['\n'] (epicLines e ts) := by
  cases ts with
  | nil =>
    have hmid : epicLines e [] =
        ["# Epic: ".data ++ e, [],
         "This is the tracking issue for the \"".data ++ e ++ "\" epic.".data, [],
         "## 📋 Tasks".data, [], [], [],
         "## 📊 Progress".data, [],
         "- **Total Tasks**: ".data ++ natRepr 0,
         "- **Completed**: 0".data,
         "- **In Progress**: 0".data,
         "- **Todo**: ".data ++ natRepr 0, [],
         "## 🏷️ Labels".data, [],
         "- `epic` - This is an epic tracking issue".data,
         "- `oden-epic` - Created by Oden Forge methodology".data,
         "- `".data ++ e ++ "` - Epic identifier".data, [],
         "---".data, [],
         "*Created by Oden Forge Documentation-First Development methodology*".data,
         []] := by
      simp [epicLines]
    rw [hmid]
    simp only [intercalate_cons_cons, intercalate_singleton]
    simp only [epicBody, List.map_nil, List.length_nil]
    have hJ : List.intercalate ("\n".data) ([] : List (List Char)) = [] := rfl
    rw [hJ]
    simp only [List.append_assoc, List.cons_append, List.singleton_append,
      List.nil_append, List.append_nil]
  | cons t0 tr =>
    have hmid : epicLines e (t0 :: tr) =
        ["# Epic: ".data ++ e, [],
         "This is the tracking issue for the \"".data ++ e ++ "\" epic.".data, [],
         "## 📋 Tasks".data, []]
        ++ ((t0 :: tr).map (checklistLine e)
        ++ [[], "## 📊 Progress".data, [],
            "- **Total Tasks**: ".data ++ natRepr (t0 :: tr).length,
            "- **Completed**: 0".data,
            "- **In Progress**: 0".data,
            "- **Todo**: ".data ++ natRepr (t0 :: tr).length, [],
            "## 🏷️ Labels".data, [],
            "- `epic` - This is an epic tracking issue".data,
            "- `oden-epic` - Created by Oden Forge methodology".data,
            "- `".data ++ e ++ "` - Epic identifier".data, [],
            "---".data, [],
            "*Created by Oden Forge Documentation-First Development methodology*".data,
            []]) := by
      simp [epicLines]
    rw [hmid]
    rw [intercalate_append_ne _ _ (by simp) (by simp)]
    rw [intercalate_append_ne _ _ (by simp) (by simp)]
    simp only [intercalate_cons_cons, intercalate_singleton]
    simp only [epicBody]
    simp only [List.append_assoc, List.cons_append, List.singleton_append,
      List.nil_append, List.append_nil]

/-! ### The checklist lines of the tracking-issue body -/

theorem no_nl_append {a b : List Char} (ha : '\n' ∉ a) (hb : '\n' ∉ b) :
    '\n' ∉ a ++ b := by
  intro h
  rcases List.mem_append.mp h with h | h
  exacts [ha h, hb h]

theorem checklistLine_no_nl {e : List Char} {r : IssueRecord}
    (hnum : '\n' ∉ r.number) (ht : '\n' ∉ r.title) : '\n' ∉ checklistLine e r := by
  have hrep : '\n' ∉ pyReplace ('[' :: e ++ "] ".data) [] r.title :=
    fun h => ht (pyReplace_subset r.title.length r.title le_rfl '\n' h)
  exact no_nl_append (no_nl_append (no_nl_append (by decide) hnum) (by decide)) hrep

theorem checklist_pred (e : List Char) (r : IssueRecord) :
    leadsWith "- [ ] #".data (checklistLine e r) = true := by
  have h : checklistLine e r = "- [ ] #".data
      ++ (r.number ++ (": ".data ++ pyReplace ('[' :: e ++ "] ".data) [] r.title)) := by
    simp [checklistLine, List.append_assoc]
  rw [h]
  exact leadsWith_append _ _

theorem marker_backtick (w : List Char) :
    leadsWith "- [ ] #".data ('-' :: ' ' :: '`' :: w) = false := by
  have h : (('[' : Char) == '`') = false := by decide
  rw [show ("- [ ] #" : String).data
    = '-' :: ' ' :: '[' :: ' ' :: ']' :: ' ' :: '#' :: ([] : List Char) from rfl]
  simp [leadsWith, h]

theorem epicLines_no_nl {e : List Char} {ts : List IssueRecord} (he : '\n' ∉ e)
    (hn : ∀ r ∈ ts, '\n' ∉ r.number ∧ '\n' ∉ r.title) :
    ∀ l ∈ epicLines e ts, '\n' ∉ l := by
  intro l hl
  rcases List.mem_append.mp hl with h | h
  · rcases List.mem_append.mp h with h | h
    · simp only [List.mem_cons, List.not_mem_nil, or_false] at h
      rcases h with rfl | rfl | rfl | rfl | rfl | rfl
      · exact no_nl_append (by decide) he
      · simp
      · exact no_nl_append (no_nl_append (by decide) he) (by decide)
      · simp
      · decide
      · simp
    · by_cases hts : ts.isEmpty
      · rw [if_pos hts] at h
        simp only [List.mem_cons, List.not_mem_nil, or_false] at h
        subst h
        simp
      · rw [if_neg hts] at h
        obtain ⟨r, hr, rfl⟩ := List.mem_map.mp h
        exact checklistLine_no_nl (hn r hr).1 (hn r hr).2
  · simp only [List.mem_cons, List.not_mem_nil, or_false] at h
    rcases h with rfl | rfl | rfl | rfl | rfl | rfl | rfl | rfl | rfl | rfl | rfl | rfl
      | rfl | rfl | rfl | rfl | rfl | rfl
    · simp
    · decide
    · simp
    · exact no_nl_append (by decide) (natRepr_no_nl ts.length)
    · decide
    · decide
    · exact no_nl_append (by decide) (natRepr_no_nl ts.length)
    · simp
    · decide
    · simp
    · decide
    · decide
    · exact no_nl_append (no_nl_append (by decide) he) (by decide)
    · simp
    · decide
    · simp
    · decide
    · simp

/-- C5 (amended): the tracking-issue body contains exactly one checklist
line per created record, in creation order, each showing the record's
number and its title with EVERY occurrence of the string
`[<epic>] ` removed — not only a leading epic prefix.  The lines starting
with the checkbox marker, read off the body in order, are precisely the
generated checklist lines. -/
theorem epic_checklist_filter (e : List Char) (ts : List IssueRecord)
    (he : '\n' ∉ e)
    (hn : ∀ r ∈ ts, '\n' ∉ r.number ∧ '\n' ∉ r.title) :
    (splitLines (epicBody e ts)).filter (fun l => leadsWith "- [ ] #".data l)
      = ts.map (checklistLine e) := by
  have hne : epicLines e ts ≠ [] := by
    simp [epicLines]
  rw [epicBody_eq_intercalate,
    splitLines_intercalate (epicLines e ts) hne (epicLines_no_nl he hn)]
  have q1 : leadsWith "- [ ] #".data ("# Epic: ".data ++ e) = false := by
    rw [leadsWith_append_eval (by decide) e]
    decide
  have q3 : leadsWith "- [ ] #".data
      ("This is the tracking issue for the \"".data ++ e ++ "\" epic.".data) = false := by
    rw [show ("This is the tracking issue for the \"".data ++ e ++ "\" epic.".data)
      = ("This is the tracking issue for the \"".data
          ++ (e ++ "\" epic.".data)) from by simp]
    rw [leadsWith_append_eval (by decide) _]
    decide
  have q6 : leadsWith "- [ ] #".data
      ("- **Total Tasks**: ".data ++ natRepr ts.length) = false := by
    rw [leadsWith_append_eval (by decide) _]
    decide
  have q9 : leadsWith "- [ ] #".data
      ("- **Todo**: ".data ++ natRepr ts.length) = false := by
    rw [leadsWith_append_eval (by decide) _]
    decide
  have q13 : leadsWith "- [ ] #".data
      ("- `".data ++ e ++ "` - Epic identifier".data) = false := by
    rw [show ("- `".data ++ e ++ "` - Epic identifier".data)
      = '-' :: ' ' :: '`' :: (e ++ "` - Epic identifier".data) from by simp]
    exact marker_backtick _
  have hmid : ((if ts.isEmpty then [[]] else ts.map (checklistLine e)) :
      List (List Char)).filter (fun l => leadsWith "- [ ] #".data l)
      = ts.map (checklistLine e) := by
    by_cases hts : ts.isEmpty
    · rw [if_pos hts]
      have h0 : leadsWith "- [ ] #".data ([] : List Char) = false := by decide
      have : ts = [] := List.isEmpty_iff.mp hts
      subst this
      simp [List.filter_cons, h0]
    · rw [if_neg hts]
      exact List.filter_eq_self.mpr
        (fun l hl => by
          obtain ⟨r, hr, rfl⟩ := List.mem_map.mp hl
          exact checklist_pred e r)
  simp only [epicLines, List.filter_append, hmid]
  simp only [List.filter_cons, q1, q3, q6, q9, q13]
  simp only [show (leadsWith "- [ ] #".data [] : Bool) = false from by decide,
    show leadsWith "- [ ] #".data "## 📋 Tasks".data = false from by decide,
    show leadsWith "- [ ] #".data "## 📊 Progress".data = false from by decide,
    show leadsWith "- [ ] #".data "- **Completed**: 0".data = false from by decide,
    show leadsWith "- [ ] #".data "- **In Progress**: 0".data = false from by decide,
    show leadsWith "- [ ] #".data "## 🏷️ Labels".data = false from by decide,
    show leadsWith "- [ ] #".data
      "- `epic` - This is an epic tracking issue".data = false from by decide,
    show leadsWith "- [ ] #".data
      "- `oden-epic` - Created by Oden Forge methodology".data = false from by decide,
    show leadsWith "- [ ] #".data "---".data = false from by decide,
    show leadsWith "- [ ] #".data
      "*Created by Oden Forge Documentation-First Development methodology*".data
      = false from by decide]
  simp

/-- C5 counterexample: with epic `auth` and a record titled
`[auth] fix [auth] bug`, the checklist line the code generates is not the
line the claim describes (number, then the title with the epic prefix
stripped): the code removes the inner occurrence of `[auth] ` as well,
because line 353 uses `str.replace`, which rewrites every occurrence. -/
theorem epic_checklist_prefix_counterexample :
    (splitLines (epicBody "auth".data
        [{ success := true, number := "5".data, url := "u".data,
           title := "[auth] fix [auth] bug".data, error := [] }])).filter
        (fun l => leadsWith "- [ ] #".data l)
      ≠ [specChecklistLine "auth".data
          { success := true, number := "5".data, url := "u".data,
            title := "[auth] fix [auth] bug".data, error := [] }] := by
  decide

theorem epic_checklist_filter_witness :
    ('\n' ∉ "auth".data) ∧
    (∀ r ∈ [({ success := true, number := "5".data, url := "u".data,
               title := "[auth] fix bug".data, error := [] } : IssueRecord)],
      '\n' ∉ r.number ∧ '\n' ∉ r.title) ∧
    (splitLines (epicBody "auth".data
        [{ success := true, number := "5".data, url := "u".data,
           title := "[auth] fix bug".data, error := [] }])).filter
        (fun l => leadsWith "- [ ] #".data l)
      = [({ success := true, number := "5".data, url := "u".data,
            title := "[auth] fix bug".data, error := [] } : IssueRecord)].map
          (checklistLine "auth".data) :=
  ⟨by decide, by decide,
    epic_checklist_filter "auth".data
      [{ success := true, number := "5".data, url := "u".data,
         title := "[auth] fix bug".data, error := [] }]
      (by decide) (by decide)⟩

/-! ### Reading back an updated task file -/

theorem read_task_file_body_stripped {yparse : List Char → YamlRes}
    {path content : List Char} {t : TaskData}
    (h : (read_task_file yparse path content).task = some t) :
    pyStrip t.body = t.body := by
  unfold read_task_file at h
  split at h
  · split at h
    · split at h
      · simp only [Option.some.injEq] at h
        rw [← h]
        exact pyStrip_idem _
      · simp at h
    · simp at h
  · simp at h

theorem reread_updated (yparse : List Char → YamlRes) (path D body : List Char)
    (fm5 : FM) (hb : pyStrip body = body)
    (hmark : ∀ k, k < ('\n' :: D).length →
      leadsWith "---".data
        ((('\n' :: D) ++ "---".data ++ ('\n' :: '\n' :: body)).drop k) = false)
    (hy : yparse ('\n' :: D) = .dict fm5) :
    (read_task_file yparse path ("---\n".data ++ D ++ "---\n\n".data ++ body)).task
      = some { filepath := path, filename := basename path, frontmatter := fm5,
               body := body,
               title := (fmGet fm5 "name".data).getD (.str "Untitled Task".data),
               epic := (fmGet fm5 "epic".data).getD .null,
               work_stream := (fmGet fm5 "work_stream".data).getD .null,
               labels := (fmGet fm5 "labels".data).getD (.list []) } := by
  have hshape : "---\n".data ++ D ++ "---\n\n".data ++ body
      = "---".data ++ (('\n' :: D) ++ "---".data ++ ('\n' :: '\n' :: body)) := by
    simp [List.append_assoc]
  have hparts : pySplitN "---".data 2
      ("---\n".data ++ D ++ "---\n\n".data ++ body) []
      = [[], '\n' :: D, '\n' :: '\n' :: body] := by
    rw [hshape]
    have hm : leadsWith "---".data
        ("---".data ++ (('\n' :: D) ++ "---".data ++ ('\n' :: '\n' :: body))) = true :=
      leadsWith_append _ _
    rw [pySplitN_match (by decide) hm 1 []]
    rw [List.drop_left]
    rw [pySplitN_boundary ('\n' :: '\n' :: body) (by decide) ('\n' :: D) hmark 0 []]
    rw [pySplitN_zero]
    simp
  have hlead : leadsWith "---".data
      ("---\n".data ++ D ++ "---\n\n".data ++ body) = true := by
    rw [hshape]
    exact leadsWith_append _ _
  unfold read_task_file
  rw [if_pos hlead, hparts]
  rw [if_pos (by simp)]
  have hg1 : ([[], '\n' :: D, '\n' :: '\n' :: body] : List (List Char)).getD 1 []
      = '\n' :: D := rfl
  have hg2 : ([[], '\n' :: D, '\n' :: '\n' :: body] : List (List Char)).getD 2 []
      = '\n' :: '\n' :: body := rfl
  rw [hg1, hy]
  simp only [hg2, pyStrip_cons_ws (by decide : pyIsSpace '\n' = true), hb]

/-! ### The per-task creation loop -/

theorem create_success_iff {inp : IssueInput} {gh : CmdResult}
    (hp : (prepLabels inp).isSome = true) :
    (create_github_issue inp gh).success = true ↔ gh.returncode = 0 := by
  unfold create_github_issue
  cases hpl : prepLabels inp with
  | none => rw [hpl] at hp; simp at hp
  | some ls =>
    by_cases hrc : gh.returncode = 0
    · simp [hrc]
    · simp [hrc]

theorem syncLoop_eq (env : SyncEnv) :
    ∀ (ts : List TaskData) (k : Nat),
      syncLoop env ts k =
        ((withIdx k ts).filterMap (fun p =>
            if (create_github_issue (.fromFile p.2) (env.gh p.1)).success then
              some (create_github_issue (.fromFile p.2) (env.gh p.1))
            else none),
         (withIdx k ts).filterMap (fun p =>
            if (create_github_issue (.fromFile p.2) (env.gh p.1)).success then
              (updatedContent env.dump env.synced_at env.updated_at p.2
                  (create_github_issue (.fromFile p.2) (env.gh p.1))).map
                (fun c => (p.2.filepath, c))
            else none)) := by
  intro ts
  induction ts with
  | nil => intro k; simp [syncLoop, withIdx]
  | cons t rest ih =>
    intro k
    rw [syncLoop, withIdx]
    rw [ih (k + 1)]
    by_cases hs : (create_github_issue (.fromFile t) (env.gh k)).success = true
    · rw [if_pos hs]
      cases hu : updatedContent env.dump env.synced_at env.updated_at t
          (create_github_issue (.fromFile t) (env.gh k)) with
      | some c => simp [List.filterMap_cons, hs, hu]
      | none => simp [List.filterMap_cons, hs, hu]
    · rw [if_neg hs]
      simp only [Bool.not_eq_true] at hs
      simp [List.filterMap_cons, hs]

/-! ### Claim theorems -/

/-- C4: for every task document whose metadata block contains `epic: X`
and `labels: [a, b]`, Issue Creation composes the label list
`oden-epic, X, a, b`, plus the work-stream tag when that value is truthy,
with duplicates not removed (the composed value is literally this list). -/
theorem epic_task_label_composition (t : TaskData) (X a b : List Char)
    (hepic : t.epic = .str X) (hlabels : t.labels = .list [.str a, .str b]) :
    prepLabels (.fromFile t)
      = some ([.str "oden-epic".data, .str X, .str a, .str b]
          ++ (if pyTruthy t.work_stream then [t.work_stream] else [])) := by
  simp [prepLabels, hlabels, hepic]

theorem epic_task_label_composition_witness :
    (({ filepath := [], filename := [], frontmatter := [], body := [],
        title := .str "T".data, epic := .str "auth".data,
        work_stream := .str "ws".data,
        labels := .list [.str "backend".data, .str "oden-epic".data] } :
        TaskData).epic = .str "auth".data) ∧
    (({ filepath := [], filename := [], frontmatter := [], body := [],
        title := .str "T".data, epic := .str "auth".data,
        work_stream := .str "ws".data,
        labels := .list [.str "backend".data, .str "oden-epic".data] } :
        TaskData).labels = .list [.str "backend".data, .str "oden-epic".data]) ∧
    prepLabels (.fromFile
      { filepath := [], filename := [], frontmatter := [], body := [],
        title := .str "T".data, epic := .str "auth".data,
        work_stream := .str "ws".data,
        labels := .list [.str "backend".data, .str "oden-epic".data] })
      = some ([.str "oden-epic".data, .str "auth".data, .str "backend".data,
          .str "oden-epic".data]
        ++ (if pyTruthy (YVal.str "ws".data) then [YVal.str "ws".data] else [])) :=
  ⟨rfl, rfl, epic_task_label_composition _ "auth".data "backend".data
    "oden-epic".data rfl rfl⟩

/-- C7: a remote URL that contains `template` or `example` in any casing
at any position is rejected by the Repository Resolver with the
template-repository error, not resolved. -/
theorem template_repository_rejected (remote : CmdResult)
    (hrc : remote.returncode = 0)
    (h : ∃ pre mid post : List Char, pyStrip remote.stdout = pre ++ mid ++ post ∧
      (pyLower mid = "template".data ∨ pyLower mid = "example".data)) :
    (get_repository_info remote).success = false ∧
    (get_repository_info remote).error
      = "❌ Cannot sync to template repository. Please fork or create your own repository first.".data := by
  obtain ⟨pre, mid, post, heq, hcase⟩ := h
  have hcontains : (containsSub "template".data (pyLower (pyStrip remote.stdout))
      || containsSub "example".data (pyLower (pyStrip remote.stdout))) = true := by
    rw [heq]
    have h1 : pyLower (pre ++ mid ++ post)
        = pyLower pre ++ pyLower mid ++ pyLower post := by
      simp [pyLower]
    rcases hcase with hc | hc
    · rw [h1, hc, containsSub_middle]
      simp
    · rw [h1, hc, containsSub_middle]
      simp
  unfold get_repository_info
  rw [if_neg (by simp [hrc])]
  rw [if_pos hcontains]
  exact ⟨rfl, rfl⟩

theorem template_repository_rejected_witness :
    ((⟨0, "https://github.com/acme/Example-app".data, []⟩ : CmdResult).returncode = 0) ∧
    (∃ pre mid post : List Char,
      pyStrip (⟨0, "https://github.com/acme/Example-app".data, []⟩ :
        CmdResult).stdout = pre ++ mid ++ post ∧
      (pyLower mid = "template".data ∨ pyLower mid = "example".data)) ∧
    ((get_repository_info ⟨0, "https://github.com/acme/Example-app".data, []⟩).success
        = false ∧
      (get_repository_info ⟨0, "https://github.com/acme/Example-app".data, []⟩).error
        = "❌ Cannot sync to template repository. Please fork or create your own repository first.".data) := by
  refine ⟨rfl, ⟨"https://github.com/acme/".data, "Example".data, "-app".data,
    by decide, Or.inr (by decide)⟩, ?_⟩
  exact template_repository_rejected _ rfl
    ⟨"https://github.com/acme/".data, "Example".data, "-app".data,
      by decide, Or.inr (by decide)⟩

/-- C8: when the tasks directory does not exist Task Discovery returns the
empty sequence, and (auth and repository checks passing) the sync tool
answers with the informational no-tasks text and no error flag. -/
theorem missing_tasks_dir_informational (env : SyncEnv) (epic : List Char)
    (h : env.fs.dirExists = false) :
    find_epic_tasks env.yparse env.fs epic = [] ∧
    (env.auth.returncode = 0 → (get_repository_info env.remote).success = true →
      (sync_epic_to_github env epic).text = noTasksText epic ∧
      (sync_epic_to_github env epic).isError = false) := by
  have hfind : find_epic_tasks env.yparse env.fs epic = [] := by
    unfold find_epic_tasks
    rw [h]
    simp
  refine ⟨hfind, fun hauth hrepo => ?_⟩
  constructor <;>
    simp [sync_epic_to_github, hfind, hauth, hrepo]

theorem missing_tasks_dir_informational_witness :
    envNoDir.fs.dirExists = false ∧
    (find_epic_tasks envNoDir.yparse envNoDir.fs "auth".data = [] ∧
      (envNoDir.auth.returncode = 0 →
        (get_repository_info envNoDir.remote).success = true →
        (sync_epic_to_github envNoDir "auth".data).text = noTasksText "auth".data ∧
        (sync_epic_to_github envNoDir "auth".data).isError = false)) :=
  ⟨rfl, missing_tasks_dir_informational envNoDir "auth".data rfl⟩

/-- C9: a file whose content does not start with the `---` marker, or
whose `split('---', 2)` yields fewer than three parts, makes
`read_task_file` return no task and print nothing, and any directory of
such files yields an empty Task Discovery result. -/
theorem unmarked_file_silently_skipped (yparse : List Char → YamlRes)
    (path content : List Char)
    (h : leadsWith "---".data content = false ∨
      (pySplitN "---".data 2 content []).length < 3) :
    read_task_file yparse path content = { task := none, logged := false } ∧
    (∀ (fs : FS) (epic : List Char),
      (∀ nm ∈ fs.listing, ∀ c, fs.content nm = some c →
        (leadsWith "---".data c = false ∨ (pySplitN "---".data 2 c []).length < 3)) →
      find_epic_tasks yparse fs epic = []) := by
  have main : ∀ (p c : List Char),
      (leadsWith "---".data c = false ∨ (pySplitN "---".data 2 c []).length < 3) →
      read_task_file yparse p c = { task := none, logged := false } := by
    intro p c hc
    unfold read_task_file
    rcases hc with hc | hc
    · rw [if_neg (by simp [hc])]
    · by_cases h1 : leadsWith "---".data c = true
      · rw [if_pos h1, if_neg (by omega)]
      · rw [if_neg h1]
  refine ⟨main path content h, fun fs epic hall => ?_⟩
  unfold find_epic_tasks
  by_cases hd : fs.dirExists
  · rw [if_pos hd]
    rw [List.filterMap_eq_nil_iff]
    intro nm hnm
    show (readTaskFromFS yparse fs nm).task = none
    unfold readTaskFromFS
    cases hc : fs.content nm with
    | none => rfl
    | some c =>
      show (read_task_file yparse (joinPath fs.tasksDir nm) c).task = none
      rw [main (joinPath fs.tasksDir nm) c
        (hall nm (List.mem_of_mem_filter hnm) c hc)]
  · rw [if_neg hd]

theorem unmarked_file_silently_skipped_witness :
    (leadsWith "---".data "plain text, no metadata".data = false ∨
      (pySplitN "---".data 2 "plain text, no metadata".data []).length < 3) ∧
    (read_task_file (fun _ => .err) "p.md".data "plain text, no metadata".data
        = { task := none, logged := false } ∧
      (∀ (fs : FS) (epic : List Char),
        (∀ nm ∈ fs.listing, ∀ c, fs.content nm = some c →
          (leadsWith "---".data c = false ∨ (pySplitN "---".data 2 c []).length < 3)) →
        find_epic_tasks (fun _ => .err) fs epic = [])) :=
  ⟨Or.inl (by decide),
    unmarked_file_silently_skipped (fun _ => .err) "p.md".data
      "plain text, no metadata".data (Or.inl (by decide))⟩

/-- C10: when the Issue Record's number is not a decimal-integer string,
`update_task_with_issue` fails at the `int()` conversion before any
write: the error is logged and the document on disk is unchanged. -/
theorem bad_issue_number_leaves_file_untouched (dump : FM → List Char)
    (synced_at updated_at : List Char) (t : TaskData) (rec : IssueRecord)
    (disk : List Char) (h : pyInt rec.number = none) :
    update_task_with_issue dump synced_at updated_at t rec disk = (disk, true) := by
  unfold update_task_with_issue updatedContent
  rw [h]

theorem bad_issue_number_leaves_file_untouched_witness :
    pyInt ("abc".data) = none ∧
    update_task_with_issue (fun _ => []) [] []
      { filepath := [], filename := [], frontmatter := [], body := [],
        title := .null, epic := .null, work_stream := .null, labels := .list [] }
      { success := true, number := "abc".data, url := [], title := [], error := [] }
      "old disk content".data = ("old disk content".data, true) :=
  ⟨by decide, bad_issue_number_leaves_file_untouched _ _ _ _ _ _ (by decide)⟩

/-! ### The record returned by a successful creation call -/

theorem create_github_issue_success {inp : IssueInput} {gh : CmdResult} {ls : List YVal}
    (hpl : prepLabels inp = some ls) (hrc : gh.returncode = 0) :
    create_github_issue inp gh =
      { success := true,
        number := (pySplit "/".data (pyStrip gh.stdout)).getLastD [],
        url := pyStrip gh.stdout, title := prepTitle inp, error := [] } := by
  unfold create_github_issue
  rw [hpl]
  show (if gh.returncode = 0 then
      ({ success := true,
         number := (pySplit "/".data (pyStrip gh.stdout)).getLastD [],
         url := pyStrip gh.stdout, title := prepTitle inp, error := [] } : IssueRecord)
    else
      { success := false, number := [], url := [], title := [],
        error := "Failed to create issue: ".data ++ gh.stderr }) = _
  rw [if_pos hrc]

theorem create_github_issue_failure {inp : IssueInput} {gh : CmdResult} {ls : List YVal}
    (hpl : prepLabels inp = some ls) (hrc : ¬(gh.returncode = 0)) :
    create_github_issue inp gh =
      { success := false, number := [], url := [], title := [],
        error := "Failed to create issue: ".data ++ gh.stderr } := by
  unfold create_github_issue
  rw [hpl]
  show (if gh.returncode = 0 then
      ({ success := true,
         number := (pySplit "/".data (pyStrip gh.stdout)).getLastD [],
         url := pyStrip gh.stdout, title := prepTitle inp, error := [] } : IssueRecord)
    else
      { success := false, number := [], url := [], title := [],
        error := "Failed to create issue: ".data ++ gh.stderr }) = _
  rw [if_neg hrc]

theorem create_success_beq {inp : IssueInput} {gh : CmdResult}
    (hp : (prepLabels inp).isSome = true) :
    (create_github_issue inp gh).success = (gh.returncode == 0) := by
  cases hpl : prepLabels inp with
  | none => rw [hpl] at hp; simp at hp
  | some ls =>
    by_cases hrc : gh.returncode = 0
    · rw [create_github_issue_success hpl hrc]
      simp [hrc]
    · rw [create_github_issue_failure hpl hrc]
      simp [hrc]

/-- C2 (counterexample): the tracker client can exit zero while printing a
line whose trailing path segment is not a numeral; the creation call then
returns a successful record whose number is not an integer string, so the
record does not carry the number as an integer. -/
theorem issue_number_integer_counterexample :
    (create_github_issue (.direct "t".data "b".data []) ⟨0, "done".data, []⟩).success
      = true ∧
    pyInt (create_github_issue (.direct "t".data "b".data [])
      ⟨0, "done".data, []⟩).number = none := by
  decide

/-- C2 (amended): on zero exit status the Issue Record is the success
record whose number is the string equal to the trailing `/`-segment of the
stripped stdout; whenever that stdout ends in a slash followed by a
non-empty digit run, the number equals that run and parses as an integer
(the actual `int()` conversion happens later, in the document update). -/
theorem issue_number_trailing_segment (inp : IssueInput) (gh : CmdResult)
    (ls : List YVal) (hpl : prepLabels inp = some ls) (hrc : gh.returncode = 0) :
    (create_github_issue inp gh).success = true ∧
    (create_github_issue inp gh).number
      = (pySplit "/".data (pyStrip gh.stdout)).getLastD [] ∧
    (create_github_issue inp gh).url = pyStrip gh.stdout ∧
    (∀ base ds : List Char, pyStrip gh.stdout = base ++ '/' :: ds → ds ≠ [] →
      (∀ c ∈ ds, c.isDigit = true) →
      (create_github_issue inp gh).number = ds ∧ (pyInt ds).isSome = true) := by
  rw [create_github_issue_success hpl hrc]
  refine ⟨rfl, rfl, rfl, ?_⟩
  intro base ds heq hne hd
  refine ⟨?_, pyInt_digits hne hd⟩
  show (pySplit "/".data (pyStrip gh.stdout)).getLastD [] = ds
  rw [heq, show ("/" : String).data = ['/'] from rfl]
  exact pySplit_slash_last (fun hmem => absurd (hd '/' hmem) (by decide))

theorem issue_number_trailing_segment_witness :
    prepLabels (.direct "t".data "b".data []) = some [] ∧
    ((⟨0, "https://github.com/o/r/issues/42\n".data, []⟩ : CmdResult).returncode = 0) ∧
    ((create_github_issue (.direct "t".data "b".data [])
        ⟨0, "https://github.com/o/r/issues/42\n".data, []⟩).success = true ∧
      (create_github_issue (.direct "t".data "b".data [])
        ⟨0, "https://github.com/o/r/issues/42\n".data, []⟩).number
        = (pySplit "/".data (pyStrip
            ("https://github.com/o/r/issues/42\n".data))).getLastD [] ∧
      (create_github_issue (.direct "t".data "b".data [])
        ⟨0, "https://github.com/o/r/issues/42\n".data, []⟩).url
        = pyStrip ("https://github.com/o/r/issues/42\n".data) ∧
      (∀ base ds : List Char,
        pyStrip ("https://github.com/o/r/issues/42\n".data) = base ++ '/' :: ds →
        ds ≠ [] → (∀ c ∈ ds, c.isDigit = true) →
        (create_github_issue (.direct "t".data "b".data [])
          ⟨0, "https://github.com/o/r/issues/42\n".data, []⟩).number = ds ∧
        (pyInt ds).isSome = true)) :=
  ⟨rfl, rfl, issue_number_trailing_segment (.direct "t".data "b".data []) _ [] rfl rfl⟩

/-! ### Resolving the four equivalent remote-URL forms -/

theorem containsSub_false_drop {pat s : List Char} (h : containsSub pat s = false) :
    ∀ k, leadsWith pat (s.drop k) = false := by
  induction s with
  | nil =>
    intro k
    simpa [containsSub] using h
  | cons c cs ih =>
    intro k
    simp only [containsSub, Bool.or_eq_false_iff] at h
    cases k with
    | zero => simpa using h.1
    | succ k => simpa using ih h.2 k

theorem single_no_early (c : Char) (A ys : List Char) (hc : c ∉ A) :
    ∀ k, k < A.length → leadsWith [c] ((A ++ [c] ++ ys).drop k) = false := by
  intro k hk
  rw [show A ++ [c] ++ ys = A ++ ([c] ++ ys) from by simp,
    List.drop_append_of_le_length (le_of_lt hk)]
  cases hd : A.drop k with
  | nil =>
    have := congrArg List.length hd
    simp at this
    omega
  | cons a A' =>
    have ha : a ∈ A := by
      have : a ∈ A.drop k := by simp [hd]
      exact List.mem_of_mem_drop this
    have hne : (c == a) = false := by
      cases hbe : c == a with
      | false => rfl
      | true => exact absurd (beq_iff_eq.mp hbe ▸ ha) hc
    simp [leadsWith, hne]

theorem https_no_early (ys : List Char) :
    ∀ k, k < (("https://" : String).data).length →
      leadsWith "github.com/".data
        ((("https://".data ++ "github.com/".data ++ ys)).drop k) = false := by
  intro k hk
  rw [show ("https://".data ++ "github.com/".data ++ ys)
      = "https://".data ++ ("github.com/".data ++ ys) from by simp]
  rw [List.drop_append_of_le_length (by simp at hk ⊢; omega)]
  rw [show List.drop k ("https://".data) ++ ("github.com/".data ++ ys)
      = (List.drop k ("https://".data) ++ "github.com/".data) ++ ys from by simp]
  rw [leadsWith_append_eval (by simp [List.length_drop]) ys]
  rw [show (("https://" : String).data).length = 8 from rfl] at hk
  interval_cases k <;> decide

theorem resolve_ssh (rr : List Char)
    (hws : ∀ c ∈ rr, pyIsSpace c = false)
    (hc : ':' ∉ rr)
    (htm : containsSub "template".data
      (pyLower ("git@github.com:".data ++ rr)) = false)
    (hex : containsSub "example".data
      (pyLower ("git@github.com:".data ++ rr)) = false) :
    get_repository_info ⟨0, "git@github.com:".data ++ rr, []⟩
      = ⟨true, pyReplace ".git".data [] rr, "git@github.com:".data ++ rr, []⟩ := by
  have hstd : ((⟨0, "git@github.com:".data ++ rr, []⟩ : CmdResult)).stdout
      = "git@github.com:".data ++ rr := rfl
  have hstrip : pyStrip ("git@github.com:".data ++ rr)
      = "git@github.com:".data ++ rr := by
    apply pyStrip_eq_self
    intro c hcm
    rcases List.mem_append.mp hcm with h | h
    · exact (by decide : ∀ x ∈ ("git@github.com:" : String).data,
        pyIsSpace x = false) c h
    · exact hws c h
  have hgh : containsSub "github.com".data ("git@github.com:".data ++ rr) = true := by
    rw [show "git@github.com:".data ++ rr
      = "git@".data ++ "github.com".data ++ (":".data ++ rr) from rfl]
    exact containsSub_middle _ _ _
  have hlead : leadsWith "git@".data ("git@github.com:".data ++ rr) = true := by
    rw [show "git@github.com:".data ++ rr
      = "git@".data ++ ("github.com:".data ++ rr) from rfl]
    exact leadsWith_append _ _
  have hsplit : pySplit ":".data ("git@github.com:".data ++ rr)
      = ["git@github.com".data, rr] := by
    rw [show (":" : String).data = [':'] from rfl]
    unfold pySplit
    rw [show "git@github.com:".data ++ rr
      = "git@github.com".data ++ [':'] ++ rr from rfl]
    obtain ⟨n, hn⟩ : ∃ n, ("git@github.com".data ++ [':'] ++ rr).length = n + 1 :=
      ⟨14 + rr.length, by simp; omega⟩
    rw [hn]
    rw [pySplitN_boundary rr (by simp) "git@github.com".data
      (single_no_early ':' "git@github.com".data rr (by decide)) n []]
    rw [pySplitN_no_match (leadsWith_single_false hc) n []]
    simp
  have hcond : (containsSub "template".data
        (pyLower ("git@github.com:".data ++ rr))
      || containsSub "example".data
        (pyLower ("git@github.com:".data ++ rr))) = false := by
    rw [htm, hex]
    rfl
  unfold get_repository_info
  rw [if_neg (by simp)]
  rw [hstd, hstrip]
  rw [if_neg (by rw [hcond]; exact Bool.false_ne_true)]
  rw [if_pos hgh, if_pos hlead, hsplit]
  rfl

theorem resolve_https (rr : List Char)
    (hws : ∀ c ∈ rr, pyIsSpace c = false)
    (hng : containsSub "github.com/".data rr = false)
    (htm : containsSub "template".data
      (pyLower ("https://github.com/".data ++ rr)) = false)
    (hex : containsSub "example".data
      (pyLower ("https://github.com/".data ++ rr)) = false) :
    get_repository_info ⟨0, "https://github.com/".data ++ rr, []⟩
      = ⟨true, pyReplace ".git".data [] rr, "https://github.com/".data ++ rr, []⟩ := by
  have hstd : ((⟨0, "https://github.com/".data ++ rr, []⟩ : CmdResult)).stdout
      = "https://github.com/".data ++ rr := rfl
  have hstrip : pyStrip ("https://github.com/".data ++ rr)
      = "https://github.com/".data ++ rr := by
    apply pyStrip_eq_self
    intro c hcm
    rcases List.mem_append.mp hcm with h | h
    · exact (by decide : ∀ x ∈ ("https://github.com/" : String).data,
        pyIsSpace x = false) c h
    · exact hws c h
  have hgh : containsSub "github.com".data ("https://github.com/".data ++ rr)
      = true := by
    rw [show "https://github.com/".data ++ rr
      = "https://".data ++ "github.com".data ++ ("/".data ++ rr) from rfl]
    exact containsSub_middle _ _ _
  have hlead : leadsWith "git@".data ("https://github.com/".data ++ rr) = false := by
    rw [show "https://github.com/".data ++ rr
        = 'h' :: ("ttps://github.com/".data ++ rr) from rfl,
      show ("git@" : String).data = 'g' :: "it@".data from rfl]
    simp [leadsWith, show (('g' : Char) == 'h') = false from by decide]
  have hsplit : pySplit "github.com/".data ("https://github.com/".data ++ rr)
      = ["https://".data, rr] := by
    unfold pySplit
    rw [show "https://github.com/".data ++ rr
      = "https://".data ++ "github.com/".data ++ rr from rfl]
    obtain ⟨n, hn⟩ : ∃ n, ("https://".data ++ "github.com/".data ++ rr).length
        = n + 1 := ⟨18 + rr.length, by simp; omega⟩
    rw [hn]
    rw [pySplitN_boundary rr (by simp) "https://".data (https_no_early rr) n []]
    rw [pySplitN_no_match (containsSub_false_drop hng) n []]
    simp
  have hcond : (containsSub "template".data
        (pyLower ("https://github.com/".data ++ rr))
      || containsSub "example".data
        (pyLower ("https://github.com/".data ++ rr))) = false := by
    rw [htm, hex]
    rfl
  unfold get_repository_info
  rw [if_neg (by simp)]
  rw [hstd, hstrip]
  rw [if_neg (by rw [hcond]; exact Bool.false_ne_true)]
  rw [if_pos hgh, if_neg (by rw [hlead]; exact Bool.false_ne_true), hsplit]
  rfl

/-- C3: for every owner and name forming a valid GitHub remote URL (no
whitespace or colon in the repo part, no embedded `github.com/`, no
template/example marker), the Repository Resolver succeeds on the
SSH-style and HTTPS-style forms with and without the `.git` suffix and
extracts one identical `owner/name` string for all four. -/
theorem repo_git_suffix_equivalence (owner name : List Char)
    (hws : ∀ c ∈ owner ++ '/' :: name, pyIsSpace c = false)
    (hcolon : ':' ∉ owner ++ '/' :: name)
    (hgh : containsSub "github.com/".data
      ((owner ++ '/' :: name) ++ ".git".data) = false)
    (htm : ∀ u ∈ ["git@github.com:".data ++ (owner ++ '/' :: name),
        "git@github.com:".data ++ ((owner ++ '/' :: name) ++ ".git".data),
        "https://github.com/".data ++ (owner ++ '/' :: name),
        "https://github.com/".data ++ ((owner ++ '/' :: name) ++ ".git".data)],
      containsSub "template".data (pyLower u) = false ∧
      containsSub "example".data (pyLower u) = false) :
    ∀ u ∈ ["git@github.com:".data ++ (owner ++ '/' :: name),
        "git@github.com:".data ++ ((owner ++ '/' :: name) ++ ".git".data),
        "https://github.com/".data ++ (owner ++ '/' :: name),
        "https://github.com/".data ++ ((owner ++ '/' :: name) ++ ".git".data)],
      (get_repository_info ⟨0, u, []⟩).success = true ∧
      (get_repository_info ⟨0, u, []⟩).repo
        = pyReplace ".git".data [] (owner ++ '/' :: name) := by
  have hwsg : ∀ c ∈ (owner ++ '/' :: name) ++ ".git".data, pyIsSpace c = false := by
    intro c hcm
    rcases List.mem_append.mp hcm with h | h
    · exact hws c h
    · exact (by decide : ∀ x ∈ (".git" : String).data, pyIsSpace x = false) c h
  have hcolg : ':' ∉ (owner ++ '/' :: name) ++ ".git".data := by
    intro hcm
    rcases List.mem_append.mp hcm with h | h
    · exact hcolon h
    · exact absurd h (by decide)
  have hngp : containsSub "github.com/".data (owner ++ '/' :: name) = false := by
    cases hx : containsSub "github.com/".data (owner ++ '/' :: name) with
    | false => rfl
    | true =>
      rw [containsSub_of_sub hx ".git".data] at hgh
      exact absurd hgh (by simp)
  have hsuffix : pyReplace ".git".data [] ((owner ++ '/' :: name) ++ ".git".data)
      = pyReplace ".git".data [] (owner ++ '/' :: name) := by
    rw [show (".git" : String).data = dotGit from rfl]
    exact replace_dotGit_append (owner ++ '/' :: name)
  intro u hu
  simp only [List.mem_cons, List.not_mem_nil, or_false] at hu
  rcases hu with rfl | rfl | rfl | rfl
  · rw [resolve_ssh (owner ++ '/' :: name) hws hcolon
      (htm _ (by simp)).1 (htm _ (by simp)).2]
    exact ⟨rfl, rfl⟩
  · rw [resolve_ssh ((owner ++ '/' :: name) ++ ".git".data) hwsg hcolg
      (htm _ (by simp)).1 (htm _ (by simp)).2]
    exact ⟨rfl, hsuffix⟩
  · rw [resolve_https (owner ++ '/' :: name) hws hngp
      (htm _ (by simp)).1 (htm _ (by simp)).2]
    exact ⟨rfl, rfl⟩
  · rw [resolve_https ((owner ++ '/' :: name) ++ ".git".data) hwsg
      (by
        cases hx : containsSub "github.com/".data
            ((owner ++ '/' :: name) ++ ".git".data) with
        | false => rfl
        | true => rw [hx] at hgh; exact absurd hgh (by simp))
      (htm _ (by simp)).1 (htm _ (by simp)).2]
    exact ⟨rfl, hsuffix⟩

theorem repo_git_suffix_equivalence_witness :
    (∀ c ∈ "octo".data ++ '/' :: "my.github.io".data, pyIsSpace c = false) ∧
    (':' ∉ "octo".data ++ '/' :: "my.github.io".data) ∧
    (containsSub "github.com/".data
      (("octo".data ++ '/' :: "my.github.io".data) ++ ".git".data) = false) ∧
    (∀ u ∈ ["git@github.com:".data ++ ("octo".data ++ '/' :: "my.github.io".data),
        "git@github.com:".data
          ++ (("octo".data ++ '/' :: "my.github.io".data) ++ ".git".data),
        "https://github.com/".data ++ ("octo".data ++ '/' :: "my.github.io".data),
        "https://github.com/".data
          ++ (("octo".data ++ '/' :: "my.github.io".data) ++ ".git".data)],
      containsSub "template".data (pyLower u) = false ∧
      containsSub "example".data (pyLower u) = false) ∧
    (∀ u ∈ ["git@github.com:".data ++ ("octo".data ++ '/' :: "my.github.io".data),
        "git@github.com:".data
          ++ (("octo".data ++ '/' :: "my.github.io".data) ++ ".git".data),
        "https://github.com/".data ++ ("octo".data ++ '/' :: "my.github.io".data),
        "https://github.com/".data
          ++ (("octo".data ++ '/' :: "my.github.io".data) ++ ".git".data)],
      (get_repository_info ⟨0, u, []⟩).success = true ∧
      (get_repository_info ⟨0, u, []⟩).repo
        = pyReplace ".git".data [] ("octo".data ++ '/' :: "my.github.io".data)) :=
  ⟨by decide, by decide, by decide, by decide,
    repo_git_suffix_equivalence "octo".data "my.github.io".data
      (by decide) (by decide) (by decide) (by decide)⟩

/-- C1: updating a successfully synced task document preserves the parsed
body byte-for-byte (re-reading the rewritten file returns the same body
and the updated metadata), adds exactly the five keys `github_issue`,
`github_url`, `synced_at`, `sync_status`, `updated` with their new values,
and leaves the value of every other pre-existing key unaltered.  The YAML
oracle is assumed to reproduce the dumped mapping and the dumped text is
assumed not to contain a premature `---` marker. -/
theorem update_preserves_body_and_metadata
    (yparse : List Char → YamlRes) (dump : FM → List Char)
    (synced_at updated_at path content : List Char)
    (t : TaskData) (rec : IssueRecord) (n : Int)
    (hread : (read_task_file yparse path content).task = some t)
    (hn : pyInt rec.number = some n)
    (hmark : ∀ k,
      k < ('\n' :: dump (updatedFrontmatter t rec n synced_at updated_at)).length →
      leadsWith "---".data
        ((('\n' :: dump (updatedFrontmatter t rec n synced_at updated_at))
          ++ "---".data ++ ('\n' :: '\n' :: t.body)).drop k) = false)
    (hy : yparse ('\n' :: dump (updatedFrontmatter t rec n synced_at updated_at))
      = .dict (updatedFrontmatter t rec n synced_at updated_at)) :
    updatedContent dump synced_at updated_at t rec
      = some ("---\n".data ++ dump (updatedFrontmatter t rec n synced_at updated_at)
          ++ "---\n\n".data ++ t.body) ∧
    (∃ t', (read_task_file yparse path
        ("---\n".data ++ dump (updatedFrontmatter t rec n synced_at updated_at)
          ++ "---\n\n".data ++ t.body)).task = some t' ∧
      t'.body = t.body ∧
      t'.frontmatter = updatedFrontmatter t rec n synced_at updated_at) ∧
    (∀ k, k ∉ fiveKeys →
      fmGet (updatedFrontmatter t rec n synced_at updated_at) k
        = fmGet t.frontmatter k) ∧
    (∀ k, (fmGet (updatedFrontmatter t rec n synced_at updated_at) k).isSome = true
      ↔ ((fmGet t.frontmatter k).isSome = true ∨ k ∈ fiveKeys)) ∧
    fmGet (updatedFrontmatter t rec n synced_at updated_at) "github_issue".data
      = some (.int n) ∧
    fmGet (updatedFrontmatter t rec n synced_at updated_at) "github_url".data
      = some (.str rec.url) ∧
    fmGet (updatedFrontmatter t rec n synced_at updated_at) "synced_at".data
      = some (.str synced_at) ∧
    fmGet (updatedFrontmatter t rec n synced_at updated_at) "sync_status".data
      = some (.str "created".data) ∧
    fmGet (updatedFrontmatter t rec n synced_at updated_at) "updated".data
      = some (.str updated_at) := by
  refine ⟨?_, ?_, ?_, ?_, ?_, ?_, ?_, ?_, ?_⟩
  · unfold updatedContent
    rw [hn]
  · exact ⟨_, reread_updated yparse path
      (dump (updatedFrontmatter t rec n synced_at updated_at)) t.body
      (updatedFrontmatter t rec n synced_at updated_at)
      (read_task_file_body_stripped hread) hmark hy, rfl, rfl⟩
  · intro k hk
    have h1 : k ≠ "github_issue".data := fun hh => hk (by simp [fiveKeys, hh])
    have h2 : k ≠ "github_url".data := fun hh => hk (by simp [fiveKeys, hh])
    have h3 : k ≠ "synced_at".data := fun hh => hk (by simp [fiveKeys, hh])
    have h4 : k ≠ "sync_status".data := fun hh => hk (by simp [fiveKeys, hh])
    have h5 : k ≠ "updated".data := fun hh => hk (by simp [fiveKeys, hh])
    unfold updatedFrontmatter
    rw [fmGet_dictSet_other _ _ _ h5, fmGet_dictSet_other _ _ _ h4,
      fmGet_dictSet_other _ _ _ h3, fmGet_dictSet_other _ _ _ h2,
      fmGet_dictSet_other _ _ _ h1]
  · intro k
    unfold updatedFrontmatter
    rw [fmGet_dictSet_isSome, fmGet_dictSet_isSome, fmGet_dictSet_isSome,
      fmGet_dictSet_isSome, fmGet_dictSet_isSome]
    simp only [fiveKeys, List.mem_cons, List.not_mem_nil, or_false]
    tauto
  · unfold updatedFrontmatter
    rw [fmGet_dictSet_other _ _ _ (by decide), fmGet_dictSet_other _ _ _ (by decide),
      fmGet_dictSet_other _ _ _ (by decide), fmGet_dictSet_other _ _ _ (by decide),
      fmGet_dictSet_same]
  · unfold updatedFrontmatter
    rw [fmGet_dictSet_other _ _ _ (by decide), fmGet_dictSet_other _ _ _ (by decide),
      fmGet_dictSet_other _ _ _ (by decide), fmGet_dictSet_same]
  · unfold updatedFrontmatter
    rw [fmGet_dictSet_other _ _ _ (by decide), fmGet_dictSet_other _ _ _ (by decide),
      fmGet_dictSet_same]
  · unfold updatedFrontmatter
    rw [fmGet_dictSet_other _ _ _ (by decide), fmGet_dictSet_same]
  · unfold updatedFrontmatter
    rw [fmGet_dictSet_same]

theorem update_preserves_body_and_metadata_witness :
    ((read_task_file yparseW "p.md".data "---\nx: 1\n---\n\nhello".data).task
      = some taskW) ∧
    pyInt recW.number = some 7 ∧
    (∀ k,
      k < ('\n' :: dumpW (updatedFrontmatter taskW recW 7 "T1".data "T2".data)).length →
      leadsWith "---".data
        ((('\n' :: dumpW (updatedFrontmatter taskW recW 7 "T1".data "T2".data))
          ++ "---".data ++ ('\n' :: '\n' :: taskW.body)).drop k) = false) ∧
    (yparseW ('\n' :: dumpW (updatedFrontmatter taskW recW 7 "T1".data "T2".data))
      = .dict (updatedFrontmatter taskW recW 7 "T1".data "T2".data)) ∧
    (updatedContent dumpW "T1".data "T2".data taskW recW
      = some ("---\n".data ++ dumpW (updatedFrontmatter taskW recW 7 "T1".data "T2".data)
          ++ "---\n\n".data ++ taskW.body) ∧
    (∃ t', (read_task_file yparseW "p.md".data
        ("---\n".data ++ dumpW (updatedFrontmatter taskW recW 7 "T1".data "T2".data)
          ++ "---\n\n".data ++ taskW.body)).task = some t' ∧
      t'.body = taskW.body ∧
      t'.frontmatter = updatedFrontmatter taskW recW 7 "T1".data "T2".data) ∧
    (∀ k, k ∉ fiveKeys →
      fmGet (updatedFrontmatter taskW recW 7 "T1".data "T2".data) k
        = fmGet taskW.frontmatter k) ∧
    (∀ k, (fmGet (updatedFrontmatter taskW recW 7 "T1".data "T2".data) k).isSome = true
      ↔ ((fmGet taskW.frontmatter k).isSome = true ∨ k ∈ fiveKeys)) ∧
    fmGet (updatedFrontmatter taskW recW 7 "T1".data "T2".data) "github_issue".data
      = some (.int 7) ∧
    fmGet (updatedFrontmatter taskW recW 7 "T1".data "T2".data) "github_url".data
      = some (.str recW.url) ∧
    fmGet (updatedFrontmatter taskW recW 7 "T1".data "T2".data) "synced_at".data
      = some (.str "T1".data) ∧
    fmGet (updatedFrontmatter taskW recW 7 "T1".data "T2".data) "sync_status".data
      = some (.str "created".data) ∧
    fmGet (updatedFrontmatter taskW recW 7 "T1".data "T2".data) "updated".data
      = some (.str "T2".data)) :=
  ⟨rfl, rfl, by decide, rfl,
    update_preserves_body_and_metadata yparseW dumpW "T1".data "T2".data
      "p.md".data "---\nx: 1\n---\n\nhello".data taskW recW 7
      rfl rfl (by decide) rfl⟩

theorem withIdx_mem {p : Nat × TaskData} : ∀ {k : Nat} {ts : List TaskData},
    p ∈ withIdx k ts → p.2 ∈ ts := by
  intro k ts
  induction ts generalizing k with
  | nil => intro h; simp [withIdx] at h
  | cons t rest ih =>
    intro h
    rw [withIdx] at h
    rcases List.mem_cons.mp h with h | h
    · subst h; exact List.mem_cons_self _ _
    · exact List.mem_cons_of_mem _ (ih h)

theorem withIdx_length : ∀ (k : Nat) (ts : List TaskData),
    (withIdx k ts).length = ts.length := by
  intro k ts
  induction ts generalizing k with
  | nil => rfl
  | cons t rest ih => simp [withIdx, ih]

theorem filterMap_congr_mem {α β : Type} {f g : α → Option β} :
    ∀ {l : List α}, (∀ a ∈ l, f a = g a) → l.filterMap f = l.filterMap g := by
  intro l
  induction l with
  | nil => intro _; rfl
  | cons a as ih =>
    intro h
    rw [List.filterMap_cons, List.filterMap_cons, h a (List.mem_cons_self a as),
      ih (fun x hx => h x (List.mem_cons_of_mem a hx))]

theorem length_filterMap_lt {α β : Type} (f : α → Option β) {a : α} :
    ∀ {l : List α}, a ∈ l → f a = none → (l.filterMap f).length < l.length := by
  intro l
  induction l with
  | nil => intro h _; simp at h
  | cons b bs ih =>
    intro hmem hfa
    rw [List.filterMap_cons]
    rcases List.mem_cons.mp hmem with h | h
    · subst h
      rw [hfa]
      exact Nat.lt_succ_of_le (List.length_filterMap_le f bs)
    · cases hfb : f b with
      | none => exact Nat.lt_succ_of_lt (ih h hfa)
      | some c => simpa using Nat.succ_lt_succ (ih h hfa)

/-- C6: with the auth and repository gates passing and a non-empty task
list, when the tracker client fails for at least one task and succeeds for
at least one other, the sync completes without error; the created records
are exactly the successful tasks' records in task order; the files
rewritten are exactly the successful tasks' documents (each successful
record's number is assumed to parse, so the rewrite happens); the
tracking-issue body is generated from the successful records only, so
every failed task is omitted from its checklist; and the summary reports
only the created records, which are non-empty but fewer than the tasks
found. -/
theorem mixed_outcome_sync (env : SyncEnv) (epic : List Char)
    (hauth : env.auth.returncode = 0)
    (hrepo : (get_repository_info env.remote).success = true)
    (hne : (find_epic_tasks env.yparse env.fs epic).isEmpty = false)
    (hlab : ∀ t ∈ find_epic_tasks env.yparse env.fs epic,
      (prepLabels (.fromFile t)).isSome = true)
    (hwr : ∀ p ∈ withIdx 0 (find_epic_tasks env.yparse env.fs epic),
      (env.gh p.1).returncode = 0 →
      (updatedContent env.dump env.synced_at env.updated_at p.2
        (create_github_issue (.fromFile p.2) (env.gh p.1))).isSome = true)
    (hsucc : ∃ p ∈ withIdx 0 (find_epic_tasks env.yparse env.fs epic),
      (env.gh p.1).returncode = 0)
    (hfail : ∃ q ∈ withIdx 0 (find_epic_tasks env.yparse env.fs epic),
      (env.gh q.1).returncode ≠ 0) :
    (sync_epic_to_github env epic).isError = false ∧
    (sync_epic_to_github env epic).created
      = (withIdx 0 (find_epic_tasks env.yparse env.fs epic)).filterMap
          (fun p => if (env.gh p.1).returncode == 0 then
            some (create_github_issue (.fromFile p.2) (env.gh p.1)) else none) ∧
    (∀ r ∈ (sync_epic_to_github env epic).created, r.success = true) ∧
    (sync_epic_to_github env epic).writes.map Prod.fst
      = (withIdx 0 (find_epic_tasks env.yparse env.fs epic)).filterMap
          (fun p => if (env.gh p.1).returncode == 0 then
            some p.2.filepath else none) ∧
    (sync_epic_to_github env epic).trackingBody
      = epicBody epic (sync_epic_to_github env epic).created ∧
    (sync_epic_to_github env epic).text
      = summaryText epic (sync_epic_to_github env epic).created
          (create_epic_tracking_issue epic (sync_epic_to_github env epic).created
            (env.gh (find_epic_tasks env.yparse env.fs epic).length))
          (get_repository_info env.remote).repo ∧
    (sync_epic_to_github env epic).created ≠ [] ∧
    (sync_epic_to_github env epic).created.length
      < (find_epic_tasks env.yparse env.fs epic).length := by
  have hres : sync_epic_to_github env epic =
      { text := summaryText epic
          (syncLoop env (find_epic_tasks env.yparse env.fs epic) 0).1
          (create_epic_tracking_issue epic
            (syncLoop env (find_epic_tasks env.yparse env.fs epic) 0).1
            (env.gh (find_epic_tasks env.yparse env.fs epic).length))
          (get_repository_info env.remote).repo
        isError := false
        created := (syncLoop env (find_epic_tasks env.yparse env.fs epic) 0).1
        writes := (syncLoop env (find_epic_tasks env.yparse env.fs epic) 0).2
        trackingBody := epicBody epic
          (syncLoop env (find_epic_tasks env.yparse env.fs epic) 0).1 } := by
    unfold sync_epic_to_github
    rw [if_neg (by simp [hauth])]
    rw [if_neg (by simp [hrepo])]
    rw [if_neg (by simp [hne])]
  have hloop := syncLoop_eq env (find_epic_tasks env.yparse env.fs epic) 0
  have hcreated : (syncLoop env (find_epic_tasks env.yparse env.fs epic) 0).1
      = (withIdx 0 (find_epic_tasks env.yparse env.fs epic)).filterMap
          (fun p => if (env.gh p.1).returncode == 0 then
            some (create_github_issue (.fromFile p.2) (env.gh p.1)) else none) := by
    rw [hloop]
    refine filterMap_congr_mem (fun p hp => ?_)
    show (if (create_github_issue (.fromFile p.2) (env.gh p.1)).success = true then
        some (create_github_issue (.fromFile p.2) (env.gh p.1)) else none)
      = (if ((env.gh p.1).returncode == 0) = true then
        some (create_github_issue (.fromFile p.2) (env.gh p.1)) else none)
    rw [create_success_beq (hlab p.2 (withIdx_mem hp))]
  have hwrites : (syncLoop env (find_epic_tasks env.yparse env.fs epic) 0).2
      = (withIdx 0 (find_epic_tasks env.yparse env.fs epic)).filterMap
          (fun p => if ((env.gh p.1).returncode == 0) = true then
            (updatedContent env.dump env.synced_at env.updated_at p.2
              (create_github_issue (.fromFile p.2) (env.gh p.1))).map
              (fun c => (p.2.filepath, c)) else none) := by
    rw [hloop]
    refine filterMap_congr_mem (fun p hp => ?_)
    show (if (create_github_issue (.fromFile p.2) (env.gh p.1)).success = true then
        (updatedContent env.dump env.synced_at env.updated_at p.2
          (create_github_issue (.fromFile p.2) (env.gh p.1))).map
          (fun c => (p.2.filepath, c)) else none)
      = (if ((env.gh p.1).returncode == 0) = true then
        (updatedContent env.dump env.synced_at env.updated_at p.2
          (create_github_issue (.fromFile p.2) (env.gh p.1))).map
          (fun c => (p.2.filepath, c)) else none)
    rw [create_success_beq (hlab p.2 (withIdx_mem hp))]
  have hmemAll : ∀ r ∈ (syncLoop env (find_epic_tasks env.yparse env.fs epic) 0).1,
      r.success = true := by
    rw [hcreated]
    intro r hr
    obtain ⟨p, hp, hpr⟩ := List.mem_filterMap.mp hr
    by_cases hrc : ((env.gh p.1).returncode == 0) = true
    · simp only [hrc, if_true, Option.some.injEq] at hpr
      rw [← hpr, create_success_beq (hlab p.2 (withIdx_mem hp))]
      exact hrc
    · simp [hrc] at hpr
  have hwfstAll : ((syncLoop env (find_epic_tasks env.yparse env.fs epic) 0).2).map
        Prod.fst
      = (withIdx 0 (find_epic_tasks env.yparse env.fs epic)).filterMap
          (fun p => if (env.gh p.1).returncode == 0 then
            some p.2.filepath else none) := by
    rw [hwrites, List.map_filterMap]
    refine filterMap_congr_mem (fun p hp => ?_)
    show ((if ((env.gh p.1).returncode == 0) = true then
        (updatedContent env.dump env.synced_at env.updated_at p.2
          (create_github_issue (.fromFile p.2) (env.gh p.1))).map
          (fun c => (p.2.filepath, c)) else none).map Prod.fst)
      = (if ((env.gh p.1).returncode == 0) = true then
        some p.2.filepath else none)
    by_cases hrc : (env.gh p.1).returncode = 0
    · have hb : ((env.gh p.1).returncode == 0) = true := by simp [hrc]
      obtain ⟨c, hc⟩ := Option.isSome_iff_exists.mp (hwr p hp hrc)
      rw [if_pos hb, if_pos hb, hc]
      rfl
    · have hb : ((env.gh p.1).returncode == 0) = false := by simp [hrc]
      rw [if_neg (by simp [hb]), if_neg (by simp [hb])]
      rfl
  obtain ⟨p0, hp0, hrc0⟩ := hsucc
  have hmem0 : create_github_issue (.fromFile p0.2) (env.gh p0.1)
      ∈ (withIdx 0 (find_epic_tasks env.yparse env.fs epic)).filterMap
          (fun p => if (env.gh p.1).returncode == 0 then
            some (create_github_issue (.fromFile p.2) (env.gh p.1)) else none) :=
    List.mem_filterMap.mpr ⟨p0, hp0, by simp [hrc0]⟩
  have hneAll : (syncLoop env (find_epic_tasks env.yparse env.fs epic) 0).1 ≠ [] := by
    rw [hcreated]
    exact List.ne_nil_of_mem hmem0
  obtain ⟨q0, hq0, hrcq⟩ := hfail
  have hq0n : (fun (p : Nat × TaskData) =>
      if (env.gh p.1).returncode == 0 then
        some (create_github_issue (.fromFile p.2) (env.gh p.1)) else none) q0
      = none := by
    simp [hrcq]
  have hlenAll : (syncLoop env (find_epic_tasks env.yparse env.fs epic) 0).1.length
      < (find_epic_tasks env.yparse env.fs epic).length := by
    rw [hcreated]
    have := length_filterMap_lt (fun (p : Nat × TaskData) =>
      if (env.gh p.1).returncode == 0 then
        some (create_github_issue (.fromFile p.2) (env.gh p.1)) else none) hq0 hq0n
    rwa [withIdx_length] at this
  rw [hres]
  exact ⟨rfl, hcreated, hmemAll, hwfstAll, rfl, rfl, hneAll, hlenAll⟩

theorem mixed_outcome_sync_witness :
    envM.auth.returncode = 0 ∧
    (get_repository_info envM.remote).success = true ∧
    (find_epic_tasks envM.yparse envM.fs "auth".data).isEmpty = false ∧
    (∀ t ∈ find_epic_tasks envM.yparse envM.fs "auth".data,
      (prepLabels (.fromFile t)).isSome = true) ∧
    (∀ p ∈ withIdx 0 (find_epic_tasks envM.yparse envM.fs "auth".data),
      (envM.gh p.1).returncode = 0 →
      (updatedContent envM.dump envM.synced_at envM.updated_at p.2
        (create_github_issue (.fromFile p.2) (envM.gh p.1))).isSome = true) ∧
    (∃ p ∈ withIdx 0 (find_epic_tasks envM.yparse envM.fs "auth".data),
      (envM.gh p.1).returncode = 0) ∧
    (∃ q ∈ withIdx 0 (find_epic_tasks envM.yparse envM.fs "auth".data),
      (envM.gh q.1).returncode ≠ 0) ∧
    ((sync_epic_to_github envM "auth".data).isError = false ∧
     (sync_epic_to_github envM "auth".data).created
       = (withIdx 0 (find_epic_tasks envM.yparse envM.fs "auth".data)).filterMap
           (fun p => if (envM.gh p.1).returncode == 0 then
             some (create_github_issue (.fromFile p.2) (envM.gh p.1)) else none) ∧
     (∀ r ∈ (sync_epic_to_github envM "auth".data).created, r.success = true) ∧
     (sync_epic_to_github envM "auth".data).writes.map Prod.fst
       = (withIdx 0 (find_epic_tasks envM.yparse envM.fs "auth".data)).filterMap
           (fun p => if (envM.gh p.1).returncode == 0 then
             some p.2.filepath else none) ∧
     (sync_epic_to_github envM "auth".data).trackingBody
       = epicBody "auth".data (sync_epic_to_github envM "auth".data).created ∧
     (sync_epic_to_github envM "auth".data).text
       = summaryText "auth".data (sync_epic_to_github envM "auth".data).created
           (create_epic_tracking_issue "auth".data
             (sync_epic_to_github envM "auth".data).created
             (envM.gh (find_epic_tasks envM.yparse envM.fs "auth".data).length))
           (get_repository_info envM.remote).repo ∧
     (sync_epic_to_github envM "auth".data).created ≠ [] ∧
     (sync_epic_to_github envM "auth".data).created.length
       < (find_epic_tasks envM.yparse envM.fs "auth".data).length) :=
  ⟨by decide, by decide, by decide, by decide, by decide, by decide, by decide,
    mixed_outcome_sync envM "auth".data (by decide) (by decide) (by decide)
      (by decide) (by decide) (by decide) (by decide)⟩

end Oden
